import Mathlib

/-!
Verification of the kova-ipfs-client repository (`src/kova_ipfs_client/client.py`,
`exceptions.py`).  The client is a thin asynchronous wrapper around an external
IPFS HTTP library; we embed it shallowly:

* Python `str` values are lists of Unicode code points (`List Nat`), Python
  `bytes` are lists of byte values (`List Nat`, each < 256).
* The external library (`ipfshttpclient`) and the node it talks to are an
  abstract `Transport`: a record of functions, one per library call the client
  makes, each returning either a value or a raised exception together with a
  successor world.  Claims about arbitrary transport failures quantify over
  this record; claims about a well-behaved node instantiate it with `nodeT`.
* Python's `json.dumps` (default options: `ensure_ascii=True`, separators
  `", "` and `": "`) and `json.loads` (strict mode) are modelled by `dumps`
  and `loads` below, restricted to JSON without floating-point numbers and to
  strings of Unicode scalar values (no lone surrogates).
* `str.encode()` / `bytes.decode()` are modelled by strict UTF-8
  `utf8Encode` / `utf8Decode`.
-/

namespace KovaIPFS

/-! ## Character class helpers (code points as `Nat`) -/

/-- JSON whitespace: space, tab, linefeed, carriage return. -/
def isWsC (c : Nat) : Bool := c == 32 || c == 9 || c == 10 || c == 13

/-- Drop leading JSON whitespace, as Python's `_w(s, idx).end()`. -/
def skipWs (s : List Nat) : List Nat := s.dropWhile isWsC

/-- ASCII decimal digit. -/
def isDigitC (c : Nat) : Bool := 48 ≤ c && c ≤ 57

/-- Lowercase hex digit character for a value below 16 (as `json.dumps` emits). -/
def hexDigit (d : Nat) : Nat := if d < 10 then 48 + d else 87 + d

/-- Value of a hex digit character, accepting both cases (as `json.loads`). -/
def hexVal (c : Nat) : Option Nat :=
  if 48 ≤ c && c ≤ 57 then some (c - 48)
  else if 97 ≤ c && c ≤ 102 then some (c - 87)
  else if 65 ≤ c && c ≤ 70 then some (c - 55)
  else none

/-- The four hex digit characters of a code unit below 0x10000. -/
def hex4 (n : Nat) : List Nat :=
  [hexDigit (n / 4096 % 16), hexDigit (n / 256 % 16), hexDigit (n / 16 % 16), hexDigit (n % 16)]

/-- Combined value of four hex digit characters. -/
def hex4Val (a b c d : Nat) : Option Nat :=
  match hexVal a, hexVal b, hexVal c, hexVal d with
  | some x, some y, some z, some w => some (4096 * x + 256 * y + 16 * z + w)
  | _, _, _, _ => none

/-- Decimal digit characters, most significant first; the fuel only bounds
the recursion depth (any fuel above the value works, see `natChars`). -/
def natCharsAux : Nat → Nat → List Nat
  | 0, _ => []
  | fuel + 1, m => if m < 10 then [48 + m] else natCharsAux fuel (m / 10) ++ [48 + m % 10]

/-- Decimal digit characters of a natural number, most significant first. -/
def natChars (m : Nat) : List Nat := natCharsAux (m + 1) m

/-- Decimal rendering of a Python integer, as `json.dumps` / `repr` produce. -/
def intChars (n : Int) : List Nat :=
  if n < 0 then 45 :: natChars n.natAbs else natChars n.toNat

/-- Longest digit prefix and the remainder (the number scanner's greedy match). -/
def takeDigits : List Nat → List Nat × List Nat
  | [] => ([], [])
  | c :: rest =>
    if isDigitC c then
      let p := takeDigits rest
      (c :: p.1, p.2)
    else ([], c :: rest)

/-- Accumulate decimal digit characters into a value. -/
def digitsToNat (acc : Nat) : List Nat → Nat
  | [] => acc
  | d :: ds => digitsToNat (acc * 10 + (d - 48)) ds

/-- The input does not begin with a digit (so a greedy digit scan stops). -/
def noDigitHead : List Nat → Bool
  | [] => true
  | c :: _ => !isDigitC c

/-! ## The JSON value model

Values producible by `json.loads` restricted to the fragment this client ever
round-trips: no floating-point numbers (floats are outside the model).
Object members are an association list in insertion order, matching Python's
insertion-ordered `dict`. -/

inductive JVal where
  | null : JVal
  | bool : Bool → JVal
  | int : Int → JVal
  | str : List Nat → JVal
  | arr : List JVal → JVal
  | obj : List (List Nat × JVal) → JVal

/-- Insert a parsed object member as Python `dict.__setitem__`: an existing
key keeps its position and receives the new value, a new key is appended. -/
def objUpd : List (List Nat × JVal) → List Nat → JVal → List (List Nat × JVal)
  | [], k, v => [(k, v)]
  | (k0, v0) :: rest, k, v =>
    if k0 = k then (k0, v) :: rest else (k0, v0) :: objUpd rest k v

/-! ## Serialization: Python `json.dumps` with default options -/

/-- Escape one character as `json.dumps` with `ensure_ascii=True`. -/
def escChar (c : Nat) : List Nat :=
  if c = 34 then [92, 34]
  else if c = 92 then [92, 92]
  else if c = 8 then [92, 98]
  else if c = 9 then [92, 116]
  else if c = 10 then [92, 110]
  else if c = 12 then [92, 102]
  else if c = 13 then [92, 114]
  else if c < 32 then 92 :: 117 :: hex4 c
  else if c < 127 then [c]
  else if c < 65536 then 92 :: 117 :: hex4 c
  else 92 :: 117 :: hex4 (55296 + (c - 65536) / 1024) ++ 92 :: 117 :: hex4 (56320 + (c - 65536) % 1024)

/-- Escape a whole string body. -/
def escStr (s : List Nat) : List Nat := (s.map escChar).flatten

mutual

/-- Render a JSON value as `json.dumps` does with default separators
(`", "` between items, `": "` after keys). -/
def dumps : JVal → List Nat
  | .null => [110, 117, 108, 108]
  | .bool true => [116, 114, 117, 101]
  | .bool false => [102, 97, 108, 115, 101]
  | .int n => intChars n
  | .str s => 34 :: (escStr s ++ [34])
  | .arr [] => [91, 93]
  | .arr (x :: xs) => 91 :: (dumpsItems x xs ++ [93])
  | .obj [] => [123, 125]
  | .obj (kv :: kvs) => 123 :: (dumpsMembers kv kvs ++ [125])
termination_by v => sizeOf v
decreasing_by all_goals (simp_wf <;> omega)

/-- Comma-space separated rendering of a nonempty item list. -/
def dumpsItems : JVal → List JVal → List Nat
  | x, [] => dumps x
  | x, y :: ys => dumps x ++ 44 :: 32 :: dumpsItems y ys
termination_by x xs => 1 + sizeOf x + sizeOf xs
decreasing_by all_goals (simp_wf <;> omega)

/-- Comma-space separated rendering of a nonempty member list. -/
def dumpsMembers : (List Nat × JVal) → List (List Nat × JVal) → List Nat
  | kv, [] => dumpsMember kv
  | kv, kv2 :: kvs => dumpsMember kv ++ 44 :: 32 :: dumpsMembers kv2 kvs
termination_by kv kvs => 1 + sizeOf kv + sizeOf kvs
decreasing_by all_goals (simp_wf <;> omega)

/-- One `"key": value` member. -/
def dumpsMember : (List Nat × JVal) → List Nat
  | (k, v) => 34 :: (escStr k ++ 34 :: 58 :: 32 :: dumps v)
termination_by kv => sizeOf kv
decreasing_by all_goals (simp_wf <;> omega)

end

/-! ## Well-formedness of values for the round trip

Strings must consist of Unicode scalar values (no lone surrogates — Python's
`json` does not round-trip those), object keys must be pairwise distinct
(a Python `dict` cannot hold duplicates). -/

/-- Unicode scalar values: everything below 0x110000 except surrogates. -/
def validCodeB (c : Nat) : Bool := decide (c < 55296 ∨ (57344 ≤ c ∧ c < 1114112))

/-- Every character of the string is a Unicode scalar value. -/
def wfStrB (s : List Nat) : Bool := s.all validCodeB

/-- Pairwise distinct object keys. -/
def distinctKeys : List (List Nat × JVal) → Bool
  | [] => true
  | (k, _) :: rest => rest.all (fun p => decide (p.1 ≠ k)) && distinctKeys rest

mutual

/-- Values in the round-trip fragment: scalar-value strings, distinct keys. -/
def jwf : JVal → Bool
  | .null => true
  | .bool _ => true
  | .int _ => true
  | .str s => wfStrB s
  | .arr [] => true
  | .arr (x :: xs) => jwfItems x xs
  | .obj [] => true
  | .obj (kv :: kvs) => jwfMembers kv kvs && distinctKeys (kv :: kvs)
termination_by v => sizeOf v
decreasing_by all_goals (simp_wf <;> omega)

/-- Well-formedness of a nonempty item list. -/
def jwfItems : JVal → List JVal → Bool
  | x, [] => jwf x
  | x, y :: ys => jwf x && jwfItems y ys
termination_by x xs => 1 + sizeOf x + sizeOf xs
decreasing_by all_goals (simp_wf <;> omega)

/-- Well-formedness of a nonempty member list. -/
def jwfMembers : (List Nat × JVal) → List (List Nat × JVal) → Bool
  | (k, v), [] => wfStrB k && jwf v
  | (k, v), kv2 :: kvs => (wfStrB k && jwf v) && jwfMembers kv2 kvs
termination_by kv kvs => 1 + sizeOf kv + sizeOf kvs
decreasing_by all_goals (simp_wf <;> omega)

end

mutual

/-- Fuel needed by the parser below on the rendering of a value. -/
def jsize : JVal → Nat
  | .null => 1
  | .bool _ => 1
  | .int _ => 1
  | .str _ => 1
  | .arr [] => 1
  | .arr (x :: xs) => 1 + jsizeItems x xs
  | .obj [] => 1
  | .obj (kv :: kvs) => 1 + jsizeMembers kv kvs
termination_by v => sizeOf v
decreasing_by all_goals (simp_wf <;> omega)

/-- Fuel needed on a nonempty item list. -/
def jsizeItems : JVal → List JVal → Nat
  | x, [] => 1 + jsize x
  | x, y :: ys => 1 + jsize x + jsizeItems y ys
termination_by x xs => 1 + sizeOf x + sizeOf xs
decreasing_by all_goals (simp_wf <;> omega)

/-- Fuel needed on a nonempty member list. -/
def jsizeMembers : (List Nat × JVal) → List (List Nat × JVal) → Nat
  | (k, v), [] => 1 + jsize v
  | (k, v), kv2 :: kvs => 1 + jsize v + jsizeMembers kv2 kvs
termination_by kv kvs => 1 + sizeOf kv + sizeOf kvs
decreasing_by all_goals (simp_wf <;> omega)

end

/-! ## Parsing: Python `json.loads` in strict mode

A recursive-descent parser mirroring `json.scanner.py_make_scanner` and
`json.decoder`, on code-point lists.  `parseVal`/`parseItems`/`parseMembers`
carry fuel (`loads` supplies more than any successful parse can consume);
string scanning is separately recursive on the input. -/

/-- Attach a character to the front of a string-scan result. -/
def consStr (c : Nat) (r : Option (List Nat × List Nat)) : Option (List Nat × List Nat) :=
  match r with
  | some (s, rest) => some (c :: s, rest)
  | none => none

mutual

/-- Scan a string body after the opening quote (`json.decoder.py_scanstring`,
strict mode: raw control characters are rejected). -/
def scanStr : List Nat → Option (List Nat × List Nat)
  | [] => none
  | c :: rest =>
    if c = 34 then some ([], rest)
    else if c = 92 then scanEsc rest
    else if c < 32 then none
    else consStr c (scanStr rest)
termination_by s => 3 * s.length
decreasing_by all_goals (simp_wf <;> omega)

/-- Scan one escape sequence after a backslash. -/
def scanEsc : List Nat → Option (List Nat × List Nat)
  | [] => none
  | e :: rest =>
    if e = 34 then consStr 34 (scanStr rest)
    else if e = 92 then consStr 92 (scanStr rest)
    else if e = 47 then consStr 47 (scanStr rest)
    else if e = 98 then consStr 8 (scanStr rest)
    else if e = 102 then consStr 12 (scanStr rest)
    else if e = 110 then consStr 10 (scanStr rest)
    else if e = 114 then consStr 13 (scanStr rest)
    else if e = 116 then consStr 9 (scanStr rest)
    else if e = 117 then scanU rest
    else none
termination_by s => 3 * s.length + 2
decreasing_by all_goals (simp_wf <;> omega)

/-- Scan the four hex digits of a `\uXXXX` escape.  A high surrogate value
triggers a lookahead for a following low surrogate escape, as CPython's
`py_scanstring` does. -/
def scanU : List Nat → Option (List Nat × List Nat)
  | a :: b :: cc :: d :: rest2 =>
    match hex4Val a b cc d with
    | none => none
    | some n =>
      if 55296 ≤ n ∧ n < 56320 then scanUPair n rest2
      else consStr n (scanStr rest2)
  | _ => none
termination_by s => 3 * s.length + 1
decreasing_by all_goals (simp_wf <;> omega)

/-- Combine a high surrogate with a following low surrogate escape into one
code point; keep the lone surrogate and resume scanning otherwise. -/
def scanUPair (n : Nat) : List Nat → Option (List Nat × List Nat)
  | x :: y :: a2 :: b2 :: c2 :: d2 :: rest3 =>
    if x = 92 ∧ y = 117 then
      match hex4Val a2 b2 c2 d2 with
      | some m =>
        if 56320 ≤ m ∧ m < 57344 then
          consStr (65536 + (n - 55296) * 1024 + (m - 56320)) (scanStr rest3)
        else consStr n (scanStr (x :: y :: a2 :: b2 :: c2 :: d2 :: rest3))
      | none => consStr n (scanStr (x :: y :: a2 :: b2 :: c2 :: d2 :: rest3))
    else consStr n (scanStr (x :: y :: a2 :: b2 :: c2 :: d2 :: rest3))
  | other => consStr n (scanStr other)
termination_by s => 3 * s.length + 2
decreasing_by all_goals (simp_wf <;> omega)

end

/-- Scan an integer literal (`0` or a nonzero-led digit run), the integer
fragment of the scanner's `NUMBER_RE`; greedy, leftover input is returned. -/
def scanNum : List Nat → Option (Nat × List Nat)
  | [] => none
  | c :: rest =>
    if c = 48 then some (0, rest)
    else if 49 ≤ c && c ≤ 57 then
      let p := takeDigits rest
      some (digitsToNat (c - 48) p.1, p.2)
    else none

/-- Match an exact literal continuation (for `null`, `true`, `false`). -/
def stripLit : List Nat → List Nat → Option (List Nat)
  | [], s => some s
  | _ :: _, [] => none
  | l :: ls, c :: cs => if c = l then stripLit ls cs else none

mutual

/-- Scan one JSON value, skipping leading whitespace (`_scan_once`).  Floats
(`.`/`e` continuations, `NaN`, `Infinity`) are outside the model: the scanner
stops at the integer part and the leftover input makes the enclosing parse
fail, where CPython would produce a float. -/
def parseVal : Nat → List Nat → Option (JVal × List Nat)
  | 0, _ => none
  | fuel + 1, s =>
    match skipWs s with
    | [] => none
    | c :: rest =>
      if c = 110 then
        match stripLit [117, 108, 108] rest with
        | some r => some (.null, r)
        | none => none
      else if c = 116 then
        match stripLit [114, 117, 101] rest with
        | some r => some (.bool true, r)
        | none => none
      else if c = 102 then
        match stripLit [97, 108, 115, 101] rest with
        | some r => some (.bool false, r)
        | none => none
      else if c = 34 then
        match scanStr rest with
        | some (st, r) => some (.str st, r)
        | none => none
      else if c = 91 then
        match skipWs rest with
        | [] => none
        | d :: r => if d = 93 then some (.arr [], r) else parseItems fuel (d :: r) []
      else if c = 123 then
        match skipWs rest with
        | [] => none
        | d :: r => if d = 125 then some (.obj [], r) else parseMembers fuel (d :: r) []
      else if c = 45 then
        match scanNum rest with
        | some (m, r) => some (.int (-(m : Int)), r)
        | none => none
      else if isDigitC c then
        match scanNum (c :: rest) with
        | some (m, r) => some (.int (m : Int), r)
        | none => none
      else none

/-- Scan the items of a nonempty array after the opening bracket
(`JSONArray`'s loop). -/
def parseItems : Nat → List Nat → List JVal → Option (JVal × List Nat)
  | 0, _, _ => none
  | fuel + 1, s, acc =>
    match parseVal fuel s with
    | some (v, r) =>
      match skipWs r with
      | 44 :: r2 => parseItems fuel r2 (acc ++ [v])
      | 93 :: r2 => some (.arr (acc ++ [v]), r2)
      | _ => none
    | none => none

/-- Scan the members of a nonempty object positioned at a key quote
(`JSONObject`'s loop); members land in the accumulator via `objUpd`,
matching insertion into a Python `dict`. -/
def parseMembers : Nat → List Nat → List (List Nat × JVal) → Option (JVal × List Nat)
  | 0, _, _ => none
  | fuel + 1, s, acc =>
    match s with
    | 34 :: r =>
      match scanStr r with
      | some (k, r2) =>
        match skipWs r2 with
        | 58 :: r3 =>
          match parseVal fuel r3 with
          | some (v, r4) =>
            match skipWs r4 with
            | 44 :: r5 => parseMembers fuel (skipWs r5) (objUpd acc k v)
            | 125 :: r5 => some (.obj (objUpd acc k v), r5)
            | _ => none
          | none => none
        | _ => none
      | none => none
    | _ => none

end

/-- Python `json.loads` on a decoded string: scan one value, then require
only whitespace to remain.  The fuel bound exceeds what any successful
scan can consume. -/
def loads (s : List Nat) : Option JVal :=
  match parseVal (s.length + 1) s with
  | some (v, r) => if skipWs r = [] then some v else none
  | none => none

/-! ## UTF-8: Python `str.encode()` / `bytes.decode()` (strict) -/

/-- UTF-8 bytes of one code point (valid scalar values only; surrogates and
out-of-range values have no encoding and are rejected by `utf8Encode`). -/
def utf8Char (c : Nat) : List Nat :=
  if c < 128 then [c]
  else if c < 2048 then [192 + c / 64, 128 + c % 64]
  else if c < 65536 then [224 + c / 4096, 128 + c / 64 % 64, 128 + c % 64]
  else [240 + c / 262144, 128 + c / 4096 % 64, 128 + c / 64 % 64, 128 + c % 64]

/-- Python `str.encode()`: UTF-8, raising on lone surrogates. -/
def utf8Encode (s : List Nat) : Option (List Nat) :=
  if s.all validCodeB then some (s.map utf8Char).flatten else none

/-- One byte continues a UTF-8 sequence. -/
def isCont (b : Nat) : Bool := 128 ≤ b && b < 192

/-! Python `bytes.decode()`: strict UTF-8 — rejects continuation-byte
starts, overlong forms, surrogates, values beyond 0x10FFFF, truncation.
The three continuation helpers decode one multi-byte sequence each. -/

mutual

/-- Strict UTF-8 decoding of a byte string to code points. -/
def utf8Decode : List Nat → Option (List Nat)
  | [] => some []
  | b :: bs =>
    if b < 128 then
      match utf8Decode bs with
      | some s => some (b :: s)
      | none => none
    else if b < 194 then none
    else if b < 224 then utf8Two b bs
    else if b < 240 then utf8Three b bs
    else if b < 245 then utf8Four b bs
    else none
termination_by s => s.length
decreasing_by all_goals (simp_wf <;> omega)

/-- Decode the continuation of a two-byte sequence started by `b`. -/
def utf8Two (b : Nat) : List Nat → Option (List Nat)
  | b2 :: bs2 =>
    if isCont b2 then
      match utf8Decode bs2 with
      | some s => some (((b - 192) * 64 + (b2 - 128)) :: s)
      | none => none
    else none
  | [] => none
termination_by s => s.length
decreasing_by all_goals (simp_wf <;> omega)

/-- Decode the continuation of a three-byte sequence started by `b`. -/
def utf8Three (b : Nat) : List Nat → Option (List Nat)
  | b2 :: b3 :: bs2 =>
    if isCont b2 && isCont b3 then
      let c := (b - 224) * 4096 + (b2 - 128) * 64 + (b3 - 128)
      if c < 2048 then none
      else if 55296 ≤ c ∧ c < 57344 then none
      else
        match utf8Decode bs2 with
        | some s => some (c :: s)
        | none => none
    else none
  | _ => none
termination_by s => s.length
decreasing_by all_goals (simp_wf <;> omega)

/-- Decode the continuation of a four-byte sequence started by `b`. -/
def utf8Four (b : Nat) : List Nat → Option (List Nat)
  | b2 :: b3 :: b4 :: bs2 =>
    if isCont b2 && isCont b3 && isCont b4 then
      let c := (b - 240) * 262144 + (b2 - 128) * 4096 + (b3 - 128) * 64 + (b4 - 128)
      if c < 65536 then none
      else if 1114112 ≤ c then none
      else
        match utf8Decode bs2 with
        | some s => some (c :: s)
        | none => none
    else none
  | _ => none
termination_by s => s.length
decreasing_by all_goals (simp_wf <;> omega)

end

/-! ## Exceptions

`src/kova_ipfs_client/exceptions.py` defines `IPFSError` and its subclasses
`IPFSConnectionError` and `IPFSTimeoutError`.  Anything else that can be
raised during an operation — exceptions of the wrapped `ipfshttpclient`
library, `aiohttp`, the interpreter's own `AttributeError`, … — is modelled
as `transportError`; `attributeError` is singled out because the client
itself provokes it by calling methods on `self._client = None`. -/

inductive PyExc where
  | ipfsError : String → PyExc
  | ipfsConnectionError : String → PyExc
  | ipfsTimeoutError : String → PyExc
  | attributeError : String → PyExc
  | transportError : String → PyExc
deriving DecidableEq

/-- The message used when the exception interpolates into an f-string. -/
def excMsg : PyExc → String
  | .ipfsError m => m
  | .ipfsConnectionError m => m
  | .ipfsTimeoutError m => m
  | .attributeError m => m
  | .transportError m => m

/-- The three client-specific error kinds of `exceptions.py`. -/
def isClientExc : PyExc → Bool
  | .ipfsError _ => true
  | .ipfsConnectionError _ => true
  | .ipfsTimeoutError _ => true
  | .attributeError _ => false
  | .transportError _ => false

/-- Exactly the `IPFSConnectionError` kind. -/
def isConnExc : PyExc → Bool
  | .ipfsConnectionError _ => true
  | _ => false

/-- Python's message for an attribute access on `None`
(`self._client.<attr>` while `_client is None`). -/
def noneAttr (attr : String) : String :=
  "'NoneType' object has no attribute '" ++ attr ++ "'"

/-- A result is a value or specifically a raised base-class `IPFSError`
(never a subclass, never a transport-native exception). -/
def okOrBaseErr {α : Type} : Except PyExc α → Bool
  | .ok _ => true
  | .error (.ipfsError _) => true
  | .error _ => false

/-- Whether a result is a raised `IPFSConnectionError`. -/
def raisedConnErr {α : Type} : Except PyExc α → Bool
  | .error (.ipfsConnectionError _) => true
  | _ => false

/-- Whether a result is a value (no exception raised). -/
def isOkRes {α : Type} : Except PyExc α → Bool
  | .ok _ => true
  | .error _ => false

/-- A result is a value or a raised client-specific exception. -/
def okOrClientErr {α : Type} : Except PyExc α → Bool
  | .ok _ => true
  | .error e => isClientExc e

/-! ## The external world: node, filesystem, transport handle -/

/-- The storage node's state: content-addressed blob store and the recursive
pin set (spec section 3, PinSet). -/
structure NodeState where
  store : List (String × List Nat)
  pins : List String
deriving DecidableEq

/-- Association-list lookup by key. -/
def alookup {β : Type} : List (String × β) → String → Option β
  | [], _ => none
  | (k, v) :: rest, key => if k = key then some v else alookup rest key

/-- Association-list insert-or-overwrite. -/
def aupsert {β : Type} : List (String × β) → String → β → List (String × β)
  | [], key, v => [(key, v)]
  | (k, v0) :: rest, key, v =>
    if k = key then (k, v) :: rest else (k, v0) :: aupsert rest key v

/-- A filesystem of directories and files keyed by path segments
(for `Path.exists`, `Path.mkdir(parents=True, exist_ok=True)`,
`Path.write_bytes`). -/
structure FS where
  dirs : List (List String)
  files : List (List String × List Nat)

/-- Path lookup in the file map. -/
def fsRead (fs : FS) (p : List String) : Option (List Nat) :=
  match fs.files.find? (fun q => q.1 = p) with
  | some q => some q.2
  | none => none

/-- `Path(p).exists()`: a file or directory is present at `p`. -/
def fsExists (fs : FS) (p : List String) : Bool :=
  (fsRead fs p).isSome || fs.dirs.contains p

/-- `Path(d).mkdir(parents=True, exist_ok=True)`: record `d` and every
ancestor as existing directories. -/
def fsMkdirParents (fs : FS) (d : List String) : FS :=
  { fs with dirs := d.inits ++ fs.dirs }

/-- `Path(p).write_bytes(data)`: create or overwrite the file at `p`. -/
def fsWrite (fs : FS) (p : List String) (data : List Nat) : FS :=
  { fs with files := (p, data) :: fs.files.filter (fun q => decide (q.1 ≠ p)) }

/-- Everything outside the client: the node, the filesystem reachable from
the client's process, and how many times the transport handle's `close()`
has been invoked (the handle object's own state). -/
structure World where
  node : NodeState
  fs : FS
  closes : Nat

/-- The behavior of the wrapped `ipfshttpclient` handle and of
`ipfshttpclient.connect`: one function per library call the client makes.
Each returns the call's outcome — a value or a raised exception — and a
successor world.  Quantifying over `Transport` quantifies over every
possible behavior of the external library and node. -/
structure Transport where
  connect : String → World → Except PyExc Unit × World
  close : World → Except PyExc Unit × World
  add : List String → Bool → World → Except PyExc String × World
  add_bytes : List Nat → Bool → World → Except PyExc String × World
  cat : String → World → Except PyExc (List Nat) × World
  pin_add : String → World → Except PyExc Unit × World
  pin_rm : String → World → Except PyExc Unit × World
  pin_ls : World → Except PyExc (List String) × World
  stats_bw : World → Except PyExc JVal × World
  idq : World → Except PyExc JVal × World

/-! ## The client: `src/kova_ipfs_client/client.py` -/

/-- `IPFSClient.__init__` stores host, port, protocol, the derived
`api_url`, and `self._client = None`.  The handle itself lives in the
transport; the field only records whether one was assigned. -/
structure IPFSClient where
  host : String
  port : Nat
  protocol : String
  api_url : String
  _client : Option Unit
deriving DecidableEq

/-- `IPFSClient(host, port, protocol)` (Python defaults: host `"127.0.0.1"`,
port `5001`, protocol `"http"`). -/
def mkClient (host : String) (port : Nat) (protocol : String) : IPFSClient :=
  { host := host
    port := port
    protocol := protocol
    api_url := protocol ++ "://" ++ host ++ ":" ++ toString port ++ "/api/v0"
    _client := none }

/-- Argument to `ipfshttpclient.connect`: the multiaddr-style f-string. -/
def connectAddr (c : IPFSClient) : String :=
  "/" ++ c.protocol ++ "/" ++ c.host ++ "/" ++ toString c.port

namespace IPFSClient

/-- `connect`: assign `self._client = ipfshttpclient.connect(...)`; any
exception is re-raised as `IPFSConnectionError` before the assignment
happens. -/
def connect (T : Transport) (c : IPFSClient) (w : World) :
    Except PyExc Unit × IPFSClient × World :=
  match T.connect (connectAddr c) w with
  | (.ok _, w1) => (.ok (), { c with _client := some () }, w1)
  | (.error e, w1) =>
    (.error (.ipfsConnectionError ("Failed to connect to IPFS daemon: " ++ excMsg e)), c, w1)

/-- `close`: `if self._client: self._client.close()` — no `try`/`except`,
and `_client` is not cleared. -/
def close (T : Transport) (c : IPFSClient) (w : World) :
    Except PyExc Unit × IPFSClient × World :=
  match c._client with
  | none => (.ok (), c, w)
  | some _ =>
    match T.close w with
    | (.ok _, w1) => (.ok (), c, w1)
    | (.error e, w1) => (.error e, c, w1)

/-- `add_file`: existence check (raising `IPFSError` into the same
`except`), then `self._client.add(...)["Hash"]`; every exception re-raised
as `IPFSError`.  With `_client = None` the attribute access raises
`AttributeError`, caught by `except Exception`. -/
def add_file (T : Transport) (c : IPFSClient) (file_path : List String) (pinFlag : Bool)
    (w : World) : Except PyExc String × IPFSClient × World :=
  if !(fsExists w.fs file_path) then
    (.error (.ipfsError ("Failed to add file: " ++ "File not found: " ++
      String.intercalate "/" file_path)), c, w)
  else
    match c._client with
    | none => (.error (.ipfsError ("Failed to add file: " ++ noneAttr "add")), c, w)
    | some _ =>
      match T.add file_path pinFlag w with
      | (.ok h, w1) => (.ok h, c, w1)
      | (.error e, w1) => (.error (.ipfsError ("Failed to add file: " ++ excMsg e)), c, w1)

/-- The serialization step of `add_data`: dicts via `json.dumps(...).encode()`,
strings via `.encode()`, bytes unchanged. -/
inductive PyData where
  | dict : List (List Nat × JVal) → PyData
  | pstr : List Nat → PyData
  | pbytes : List Nat → PyData

/-- Serialize a payload to bytes; `none` models a raised
`UnicodeEncodeError` (a string with lone surrogates). -/
def serialize : PyData → Option (List Nat)
  | .dict kvs => utf8Encode (dumps (.obj kvs))
  | .pstr s => utf8Encode s
  | .pbytes b => some b

/-- `add_data`: serialize, then `self._client.add_bytes(data, pin=pin)`;
every exception re-raised as `IPFSError`. -/
def add_data (T : Transport) (c : IPFSClient) (d : PyData) (pinFlag : Bool) (w : World) :
    Except PyExc String × IPFSClient × World :=
  match serialize d with
  | none => (.error (.ipfsError ("Failed to add data: " ++ "UnicodeEncodeError")), c, w)
  | some bytes =>
    match c._client with
    | none => (.error (.ipfsError ("Failed to add data: " ++ noneAttr "add_bytes")), c, w)
    | some _ =>
      match T.add_bytes bytes pinFlag w with
      | (.ok h, w1) => (.ok h, c, w1)
      | (.error e, w1) => (.error (.ipfsError ("Failed to add data: " ++ excMsg e)), c, w1)

/-- `get_file`: `self._client.cat(hash)`; if an output path was given,
`output_path.parent.mkdir(parents=True, exist_ok=True)` then
`output_path.write_bytes(data)`; returns the bytes; every exception
re-raised as `IPFSError`. -/
def get_file (T : Transport) (c : IPFSClient) (hash : String)
    (output_path : Option (List String)) (w : World) :
    Except PyExc (List Nat) × IPFSClient × World :=
  match c._client with
  | none => (.error (.ipfsError ("Failed to get file: " ++ noneAttr "cat")), c, w)
  | some _ =>
    match T.cat hash w with
    | (.ok data, w1) =>
      match output_path with
      | some p =>
        (.ok data, c,
          { w1 with fs := fsWrite (fsMkdirParents w1.fs p.dropLast) p data })
      | none => (.ok data, c, w1)
    | (.error e, w1) => (.error (.ipfsError ("Failed to get file: " ++ excMsg e)), c, w1)

/-- What `get_data` hands back: `json.loads`' value or the decoded text. -/
inductive GetDataResult where
  | json : JVal → GetDataResult
  | text : List Nat → GetDataResult

/-- `get_data`: `self._client.cat(hash)`, then
`json.loads(data.decode())` inside a `try` whose
`except (JSONDecodeError, UnicodeDecodeError)` handler returns
`data.decode()`.  When the bytes are not UTF-8, the handler's own
`data.decode()` raises again and the outer `except Exception` re-raises
`IPFSError` — raw bytes are never returned. -/
def get_data (T : Transport) (c : IPFSClient) (hash : String) (w : World) :
    Except PyExc GetDataResult × IPFSClient × World :=
  match c._client with
  | none => (.error (.ipfsError ("Failed to get data: " ++ noneAttr "cat")), c, w)
  | some _ =>
    match T.cat hash w with
    | (.ok data, w1) =>
      match utf8Decode data with
      | some s =>
        match loads s with
        | some v => (.ok (.json v), c, w1)
        | none => (.ok (.text s), c, w1)
      | none =>
        (.error (.ipfsError ("Failed to get data: " ++ "UnicodeDecodeError")), c, w1)
    | (.error e, w1) => (.error (.ipfsError ("Failed to get data: " ++ excMsg e)), c, w1)

/-- `pin`: `self._client.pin.add(hash)`, `return True`; every exception
re-raised as `IPFSError`. -/
def pin (T : Transport) (c : IPFSClient) (hash : String) (w : World) :
    Except PyExc Bool × IPFSClient × World :=
  match c._client with
  | none => (.error (.ipfsError ("Failed to pin content: " ++ noneAttr "pin")), c, w)
  | some _ =>
    match T.pin_add hash w with
    | (.ok _, w1) => (.ok true, c, w1)
    | (.error e, w1) => (.error (.ipfsError ("Failed to pin content: " ++ excMsg e)), c, w1)

/-- `unpin`: `self._client.pin.rm(hash)`, `return True`; every exception
re-raised as `IPFSError`. -/
def unpin (T : Transport) (c : IPFSClient) (hash : String) (w : World) :
    Except PyExc Bool × IPFSClient × World :=
  match c._client with
  | none => (.error (.ipfsError ("Failed to unpin content: " ++ noneAttr "pin")), c, w)
  | some _ =>
    match T.pin_rm hash w with
    | (.ok _, w1) => (.ok true, c, w1)
    | (.error e, w1) => (.error (.ipfsError ("Failed to unpin content: " ++ excMsg e)), c, w1)

/-- `list_pins`: `self._client.pin.ls(type="recursive")` and extraction of
the hashes from the response envelope (the envelope unpacking is folded
into the transport call); every exception re-raised as `IPFSError`. -/
def list_pins (T : Transport) (c : IPFSClient) (w : World) :
    Except PyExc (List String) × IPFSClient × World :=
  match c._client with
  | none => (.error (.ipfsError ("Failed to list pins: " ++ noneAttr "pin")), c, w)
  | some _ =>
    match T.pin_ls w with
    | (.ok l, w1) => (.ok l, c, w1)
    | (.error e, w1) => (.error (.ipfsError ("Failed to list pins: " ++ excMsg e)), c, w1)

/-- `get_stats`: `self._client.stats.bw()` passed through; every exception
re-raised as `IPFSError`. -/
def get_stats (T : Transport) (c : IPFSClient) (w : World) :
    Except PyExc JVal × IPFSClient × World :=
  match c._client with
  | none => (.error (.ipfsError ("Failed to get stats: " ++ noneAttr "stats")), c, w)
  | some _ =>
    match T.stats_bw w with
    | (.ok v, w1) => (.ok v, c, w1)
    | (.error e, w1) => (.error (.ipfsError ("Failed to get stats: " ++ excMsg e)), c, w1)

/-- `is_connected`: `self._client.id()` under a bare `except:` that turns
any failure whatsoever into `False`. -/
def is_connected (T : Transport) (c : IPFSClient) (w : World) :
    Except PyExc Bool × IPFSClient × World :=
  match c._client with
  | none => (.ok false, c, w)
  | some _ =>
    match T.idq w with
    | (.ok _, w1) => (.ok true, c, w1)
    | (.error _, w1) => (.ok false, c, w1)

end IPFSClient

/-! ## A well-behaved node transport

For the functional claims (round trip, pin set, file fetch) the transport is
instantiated with a deterministic content-addressed node: `add_bytes` stores
the bytes under `hashFn bytes` (any deterministic addressing function),
`cat` looks blobs up, `pin_add`/`pin_rm`/`pin_ls` maintain the pin set,
`close` ticks the handle's close counter. -/

def nodeT (hashFn : List Nat → String) : Transport :=
  { connect := fun _ w => (.ok (), w)
    close := fun w => (.ok (), { w with closes := w.closes + 1 })
    add := fun _ _ w => (.ok "QmFile", w)
    add_bytes := fun b p w =>
      (.ok (hashFn b),
        { w with node :=
          { store := aupsert w.node.store (hashFn b) b
            pins := if p then
                (if hashFn b ∈ w.node.pins then w.node.pins
                 else hashFn b :: w.node.pins)
              else w.node.pins } })
    cat := fun h w =>
      match alookup w.node.store h with
      | some b => (.ok b, w)
      | none => (.error (.transportError "merkledag: not found"), w)
    pin_add := fun h w =>
      match alookup w.node.store h with
      | some _ =>
        (.ok (),
          { w with node :=
            { w.node with pins :=
              if h ∈ w.node.pins then w.node.pins else h :: w.node.pins } })
      | none => (.error (.transportError "pin: not found"), w)
    pin_rm := fun h w =>
      if h ∈ w.node.pins then
        (.ok (), { w with node := { w.node with pins := w.node.pins.filter (fun x => decide (x ≠ h)) } })
      else (.error (.transportError "not pinned"), w)
    pin_ls := fun w => (.ok w.node.pins, w)
    stats_bw := fun w => (.ok .null, w)
    idq := fun w => (.ok .null, w) }

/-! ## Concrete scenario material for counterexamples and witnesses -/

/-- A trivial deterministic content-addressing function. -/
def hash0 : List Nat → String := fun _ => "QmHash"

/-- Empty world. -/
def w0 : World :=
  { node := { store := [], pins := [] }, fs := { dirs := [], files := [] }, closes := 0 }

/-- A freshly constructed client (`IPFSClient()` with the defaults). -/
def cl0 : IPFSClient := mkClient "127.0.0.1" 5001 "http"

/-- The client after a successful `connect()`. -/
def clC : IPFSClient := { cl0 with _client := some () }

/-- A world whose node stores non-UTF-8 bytes under `"QmX"`. -/
def wBad : World :=
  { node := { store := [("QmX", [255])], pins := [] }
    fs := { dirs := [], files := [] }, closes := 0 }

/-- A world whose node stores bytes `[7, 8]` under `"QmF"`. -/
def wF : World :=
  { node := { store := [("QmF", [7, 8])], pins := [] }
    fs := { dirs := [], files := [] }, closes := 0 }

/-- A world whose node stores the JSON text `[1]` under `"QmJ"`. -/
def wJ : World :=
  { node := { store := [("QmJ", [91, 49, 93])], pins := [] }
    fs := { dirs := [], files := [] }, closes := 0 }

/-- A transport whose handle raises a library-native exception from
`close()`. -/
def badCloseT : Transport :=
  { nodeT hash0 with close := fun w => (.error (.transportError "connection pool closed"), w) }

/-- A transport whose handle closes cleanly once and raises on any further
`close()`. -/
def onceCloseT : Transport :=
  { nodeT hash0 with close := fun w =>
      if w.closes = 0 then (.ok (), { w with closes := 1 })
      else (.error (.transportError "already closed"), w) }

/-- A transport whose handle rejects calls after it has been closed. -/
def closedGuardT : Transport :=
  { nodeT hash0 with pin_add := fun h w =>
      if 0 < w.closes then (.error (.transportError "closed handle"), w)
      else (nodeT hash0).pin_add h w }

/-- A transport whose `connect` is refused. -/
def failConnT : Transport :=
  { nodeT hash0 with connect := fun _ w => (.error (.transportError "connection refused"), w) }

/-! ## Frame helper lemmas: no operation reassigns any client field -/

theorem frame_connect (T : Transport) (c : IPFSClient) (w : World) :
    (IPFSClient.connect T c w).2.1 = c ∨
      (IPFSClient.connect T c w).2.1 = { c with _client := some () } := by
  unfold IPFSClient.connect
  rcases hT : T.connect (connectAddr c) w with ⟨r | e, w1⟩ <;> simp [hT]

theorem frame_close (T : Transport) (c : IPFSClient) (w : World) :
    (IPFSClient.close T c w).2.1 = c := by
  unfold IPFSClient.close
  rcases hc : c._client with _ | u
  · simp [hc]
  · rcases hT : T.close w with ⟨r | e, w1⟩ <;> simp [hc, hT]

theorem frame_add_file (T : Transport) (c : IPFSClient) (p : List String) (f : Bool)
    (w : World) : (IPFSClient.add_file T c p f w).2.1 = c := by
  unfold IPFSClient.add_file
  cases hx : fsExists w.fs p
  · simp [hx]
  · rcases hc : c._client with _ | u
    · simp [hx, hc]
    · rcases hT : T.add p f w with ⟨r | e, w1⟩ <;> simp [hx, hc, hT]

theorem frame_add_data (T : Transport) (c : IPFSClient) (d : IPFSClient.PyData) (f : Bool)
    (w : World) : (IPFSClient.add_data T c d f w).2.1 = c := by
  unfold IPFSClient.add_data
  rcases hs : IPFSClient.serialize d with _ | b
  · simp [hs]
  · rcases hc : c._client with _ | u
    · simp [hs, hc]
    · rcases hT : T.add_bytes b f w with ⟨r | e, w1⟩ <;> simp [hs, hc, hT]

theorem frame_get_file (T : Transport) (c : IPFSClient) (h : String)
    (o : Option (List String)) (w : World) : (IPFSClient.get_file T c h o w).2.1 = c := by
  unfold IPFSClient.get_file
  rcases hc : c._client with _ | u
  · simp [hc]
  · rcases hT : T.cat h w with ⟨e | r, w1⟩
    · simp [hc, hT]
    · rcases o with _ | p <;> simp [hc, hT]

theorem frame_get_data (T : Transport) (c : IPFSClient) (h : String) (w : World) :
    (IPFSClient.get_data T c h w).2.1 = c := by
  unfold IPFSClient.get_data
  rcases hc : c._client with _ | u
  · simp [hc]
  · rcases hT : T.cat h w with ⟨e | r, w1⟩
    · simp [hc, hT]
    · rcases hd : utf8Decode r with _ | s
      · simp [hc, hT, hd]
      · rcases hl : loads s with _ | v <;> simp [hc, hT, hd, hl]

theorem frame_pin (T : Transport) (c : IPFSClient) (h : String) (w : World) :
    (IPFSClient.pin T c h w).2.1 = c := by
  unfold IPFSClient.pin
  rcases hc : c._client with _ | u
  · simp [hc]
  · rcases hT : T.pin_add h w with ⟨r | e, w1⟩ <;> simp [hc, hT]

theorem frame_unpin (T : Transport) (c : IPFSClient) (h : String) (w : World) :
    (IPFSClient.unpin T c h w).2.1 = c := by
  unfold IPFSClient.unpin
  rcases hc : c._client with _ | u
  · simp [hc]
  · rcases hT : T.pin_rm h w with ⟨r | e, w1⟩ <;> simp [hc, hT]

theorem frame_list_pins (T : Transport) (c : IPFSClient) (w : World) :
    (IPFSClient.list_pins T c w).2.1 = c := by
  unfold IPFSClient.list_pins
  rcases hc : c._client with _ | u
  · simp [hc]
  · rcases hT : T.pin_ls w with ⟨r | e, w1⟩ <;> simp [hc, hT]

theorem frame_get_stats (T : Transport) (c : IPFSClient) (w : World) :
    (IPFSClient.get_stats T c w).2.1 = c := by
  unfold IPFSClient.get_stats
  rcases hc : c._client with _ | u
  · simp [hc]
  · rcases hT : T.stats_bw w with ⟨r | e, w1⟩ <;> simp [hc, hT]

theorem frame_is_connected (T : Transport) (c : IPFSClient) (w : World) :
    (IPFSClient.is_connected T c w).2.1 = c := by
  unfold IPFSClient.is_connected
  rcases hc : c._client with _ | u
  · simp [hc]
  · rcases hT : T.idq w with ⟨r | e, w1⟩ <;> simp [hc, hT]

/-! ## Error-taxonomy helper lemmas -/

theorem base_add_file (T : Transport) (c : IPFSClient) (p : List String) (f : Bool)
    (w : World) : okOrBaseErr (IPFSClient.add_file T c p f w).1 = true := by
  unfold IPFSClient.add_file
  cases hx : fsExists w.fs p
  · simp [hx, okOrBaseErr]
  · rcases hc : c._client with _ | u
    · simp [hx, hc, okOrBaseErr]
    · rcases hT : T.add p f w with ⟨r | e, w1⟩ <;> simp [hx, hc, hT, okOrBaseErr]

theorem base_add_data (T : Transport) (c : IPFSClient) (d : IPFSClient.PyData) (f : Bool)
    (w : World) : okOrBaseErr (IPFSClient.add_data T c d f w).1 = true := by
  unfold IPFSClient.add_data
  rcases hs : IPFSClient.serialize d with _ | b
  · simp [hs, okOrBaseErr]
  · rcases hc : c._client with _ | u
    · simp [hs, hc, okOrBaseErr]
    · rcases hT : T.add_bytes b f w with ⟨r | e, w1⟩ <;> simp [hs, hc, hT, okOrBaseErr]

theorem base_get_file (T : Transport) (c : IPFSClient) (h : String)
    (o : Option (List String)) (w : World) :
    okOrBaseErr (IPFSClient.get_file T c h o w).1 = true := by
  unfold IPFSClient.get_file
  rcases hc : c._client with _ | u
  · simp [hc, okOrBaseErr]
  · rcases hT : T.cat h w with ⟨e | r, w1⟩
    · simp [hc, hT, okOrBaseErr]
    · rcases o with _ | p <;> simp [hc, hT, okOrBaseErr]

theorem base_get_data (T : Transport) (c : IPFSClient) (h : String) (w : World) :
    okOrBaseErr (IPFSClient.get_data T c h w).1 = true := by
  unfold IPFSClient.get_data
  rcases hc : c._client with _ | u
  · simp [hc, okOrBaseErr]
  · rcases hT : T.cat h w with ⟨e | r, w1⟩
    · simp [hc, hT, okOrBaseErr]
    · rcases hd : utf8Decode r with _ | s
      · simp [hc, hT, hd, okOrBaseErr]
      · rcases hl : loads s with _ | v <;> simp [hc, hT, hd, hl, okOrBaseErr]

theorem base_pin (T : Transport) (c : IPFSClient) (h : String) (w : World) :
    okOrBaseErr (IPFSClient.pin T c h w).1 = true := by
  unfold IPFSClient.pin
  rcases hc : c._client with _ | u
  · simp [hc, okOrBaseErr]
  · rcases hT : T.pin_add h w with ⟨r | e, w1⟩ <;> simp [hc, hT, okOrBaseErr]

theorem base_unpin (T : Transport) (c : IPFSClient) (h : String) (w : World) :
    okOrBaseErr (IPFSClient.unpin T c h w).1 = true := by
  unfold IPFSClient.unpin
  rcases hc : c._client with _ | u
  · simp [hc, okOrBaseErr]
  · rcases hT : T.pin_rm h w with ⟨r | e, w1⟩ <;> simp [hc, hT, okOrBaseErr]

theorem base_list_pins (T : Transport) (c : IPFSClient) (w : World) :
    okOrBaseErr (IPFSClient.list_pins T c w).1 = true := by
  unfold IPFSClient.list_pins
  rcases hc : c._client with _ | u
  · simp [hc, okOrBaseErr]
  · rcases hT : T.pin_ls w with ⟨r | e, w1⟩ <;> simp [hc, hT, okOrBaseErr]

theorem base_get_stats (T : Transport) (c : IPFSClient) (w : World) :
    okOrBaseErr (IPFSClient.get_stats T c w).1 = true := by
  unfold IPFSClient.get_stats
  rcases hc : c._client with _ | u
  · simp [hc, okOrBaseErr]
  · rcases hT : T.stats_bw w with ⟨r | e, w1⟩ <;> simp [hc, hT, okOrBaseErr]

theorem base_imp_client {α : Type} (r : Except PyExc α) (h : okOrBaseErr r = true) :
    okOrClientErr r = true := by
  rcases r with e | v
  · rcases e <;> simp_all [okOrBaseErr, okOrClientErr, isClientExc]
  · rfl

theorem client_connect (T : Transport) (c : IPFSClient) (w : World) :
    okOrClientErr (IPFSClient.connect T c w).1 = true := by
  unfold IPFSClient.connect
  rcases hT : T.connect (connectAddr c) w with ⟨r | e, w1⟩ <;>
    simp [hT, okOrClientErr, isClientExc]

theorem client_is_connected (T : Transport) (c : IPFSClient) (w : World) :
    okOrClientErr (IPFSClient.is_connected T c w).1 = true := by
  unfold IPFSClient.is_connected
  rcases hc : c._client with _ | u
  · simp [hc, okOrClientErr]
  · rcases hT : T.idq w with ⟨r | e, w1⟩ <;> simp [hc, hT, okOrClientErr]

/-! ## Behavior of the operations against the well-behaved node -/

theorem pin_nodeT (hf : List Nat → String) (c : IPFSClient) (id : String) (w : World)
    (blob : List Nat) (hcl : c._client = some ()) (hsv : alookup w.node.store id = some blob) :
    IPFSClient.pin (nodeT hf) c id w =
      (.ok true, c,
        { w with node := { w.node with
            pins := if id ∈ w.node.pins then w.node.pins else id :: w.node.pins } }) := by
  unfold IPFSClient.pin nodeT
  simp [hcl, hsv]

theorem unpin_nodeT (hf : List Nat → String) (c : IPFSClient) (id : String) (w : World)
    (hcl : c._client = some ()) (hmem : id ∈ w.node.pins) :
    IPFSClient.unpin (nodeT hf) c id w =
      (.ok true, c,
        { w with node := { w.node with
            pins := w.node.pins.filter (fun x => decide (x ≠ id)) } }) := by
  unfold IPFSClient.unpin nodeT
  simp [hcl, hmem]

theorem list_pins_nodeT (hf : List Nat → String) (c : IPFSClient) (w : World)
    (hcl : c._client = some ()) :
    IPFSClient.list_pins (nodeT hf) c w = (.ok w.node.pins, c, w) := by
  unfold IPFSClient.list_pins nodeT
  simp [hcl]

theorem fsRead_fsWrite (fs : FS) (p : List String) (b : List Nat) :
    fsRead (fsWrite fs p b) p = some b := by
  simp [fsRead, fsWrite]

/-! ## Claim C6 -/

/-- C6: `is_connected` never raises: for every client state and transport
behavior it returns `ok` of a boolean — `True` exactly when a handle is
present and the identity probe succeeds, `False` on any failure — and never
propagates an exception. -/
theorem is_connected_never_raises (T : Transport) (c : IPFSClient) (w : World) :
    (IPFSClient.is_connected T c w).1
      = .ok (c._client.isSome && isOkRes (T.idq w).1) := by
  unfold IPFSClient.is_connected
  rcases hc : c._client with _ | u
  · simp [hc]
  · rcases hT : T.idq w with ⟨e | v, w1⟩ <;> simp [hc, hT, isOkRes]

/-! ## Claim C10 -/

theorem connect_err_frame (T : Transport) (c : IPFSClient) (w : World)
    (hf : isOkRes (IPFSClient.connect T c w).1 = false) :
    (IPFSClient.connect T c w).2.1 = c := by
  revert hf
  unfold IPFSClient.connect
  rcases hT : T.connect (connectAddr c) w with ⟨e | v, w1⟩ <;> simp [hT, isOkRes]

/-- C10: every data operation (and `is_connected`) leaves all client fields
(`host`, `port`, `protocol`, `api_url`, `_client`) unchanged whether it
succeeds or fails, and a failed `connect()` leaves `_client` exactly as it
was (the exception fires before the assignment). -/
theorem ops_preserve_client_fields (T : Transport) (c : IPFSClient) (w : World) :
    (∀ p f, (IPFSClient.add_file T c p f w).2.1 = c) ∧
    (∀ d f, (IPFSClient.add_data T c d f w).2.1 = c) ∧
    (∀ h o, (IPFSClient.get_file T c h o w).2.1 = c) ∧
    (∀ h, (IPFSClient.get_data T c h w).2.1 = c) ∧
    (∀ h, (IPFSClient.pin T c h w).2.1 = c) ∧
    (∀ h, (IPFSClient.unpin T c h w).2.1 = c) ∧
    (IPFSClient.list_pins T c w).2.1 = c ∧
    (IPFSClient.get_stats T c w).2.1 = c ∧
    (IPFSClient.is_connected T c w).2.1 = c ∧
    (isOkRes (IPFSClient.connect T c w).1 = false → (IPFSClient.connect T c w).2.1 = c) :=
  ⟨fun p f => frame_add_file T c p f w,
   fun d f => frame_add_data T c d f w,
   fun h o => frame_get_file T c h o w,
   fun h => frame_get_data T c h w,
   fun h => frame_pin T c h w,
   fun h => frame_unpin T c h w,
   frame_list_pins T c w,
   frame_get_stats T c w,
   frame_is_connected T c w,
   connect_err_frame T c w⟩

theorem ops_preserve_client_fields_witness :
    isOkRes (IPFSClient.connect failConnT cl0 w0).1 = false ∧
    (IPFSClient.connect failConnT cl0 w0).2.1 = cl0 :=
  ⟨rfl, (ops_preserve_client_fields failConnT cl0 w0).2.2.2.2.2.2.2.2.2 rfl⟩

/-! ## Claim C2 -/

/-- C2 counterexample: `close` has no `try`/`except`; a transport-native
exception raised by the underlying handle's `close()` crosses the component
boundary unwrapped. -/
theorem close_transport_leak_counterexample :
    (IPFSClient.close badCloseT clC w0).1
      = .error (.transportError "connection pool closed") ∧
    isClientExc (.transportError "connection pool closed") = false :=
  ⟨rfl, rfl⟩

/-- C2 amended: every public operation except `close` either returns a
well-typed result or raises one of the three client-specific error kinds,
for every behavior of the underlying transport; `close` (see the
counterexample) can propagate a transport-native exception. -/
theorem public_ops_client_errors_amended (T : Transport) (c : IPFSClient) (w : World) :
    okOrClientErr (IPFSClient.connect T c w).1 = true ∧
    (∀ p f, okOrClientErr (IPFSClient.add_file T c p f w).1 = true) ∧
    (∀ d f, okOrClientErr (IPFSClient.add_data T c d f w).1 = true) ∧
    (∀ h o, okOrClientErr (IPFSClient.get_file T c h o w).1 = true) ∧
    (∀ h, okOrClientErr (IPFSClient.get_data T c h w).1 = true) ∧
    (∀ h, okOrClientErr (IPFSClient.pin T c h w).1 = true) ∧
    (∀ h, okOrClientErr (IPFSClient.unpin T c h w).1 = true) ∧
    okOrClientErr (IPFSClient.list_pins T c w).1 = true ∧
    okOrClientErr (IPFSClient.get_stats T c w).1 = true ∧
    okOrClientErr (IPFSClient.is_connected T c w).1 = true :=
  ⟨client_connect T c w,
   fun p f => base_imp_client _ (base_add_file T c p f w),
   fun d f => base_imp_client _ (base_add_data T c d f w),
   fun h o => base_imp_client _ (base_get_file T c h o w),
   fun h => base_imp_client _ (base_get_data T c h w),
   fun h => base_imp_client _ (base_pin T c h w),
   fun h => base_imp_client _ (base_unpin T c h w),
   base_imp_client _ (base_list_pins T c w),
   base_imp_client _ (base_get_stats T c w),
   client_is_connected T c w⟩

/-! ## Claim C3 -/

/-- C3 counterexample: `add_data` on a never-connected client neither
auto-connects nor raises `IPFSConnectionError`: the `AttributeError` on
`None` is wrapped into the base `IPFSError` and `_client` stays `None`. -/
theorem unconnected_add_data_counterexample :
    cl0._client = none ∧
    (IPFSClient.add_data (nodeT hash0) cl0 (.pbytes [1]) true w0).1
      = .error (.ipfsError
          "Failed to add data: 'NoneType' object has no attribute 'add_bytes'") ∧
    raisedConnErr (IPFSClient.add_data (nodeT hash0) cl0 (.pbytes [1]) true w0).1 = false ∧
    (IPFSClient.add_data (nodeT hash0) cl0 (.pbytes [1]) true w0).2.1 = cl0 :=
  ⟨rfl, rfl, rfl, rfl⟩

/-- C3 amended: every data operation invoked on an Unconnected client raises
the base `IPFSError` kind (wrapping the interpreter's `AttributeError` on
`None`, or the file/serialization error), does not auto-connect, and does
not raise `IPFSConnectionError`. -/
theorem unconnected_ops_amended (T : Transport) (c : IPFSClient) (w : World)
    (hc : c._client = none) :
    (∀ p f, ∃ m, IPFSClient.add_file T c p f w = (.error (.ipfsError m), c, w)) ∧
    (∀ d f, ∃ m, IPFSClient.add_data T c d f w = (.error (.ipfsError m), c, w)) ∧
    (∀ h o, ∃ m, IPFSClient.get_file T c h o w = (.error (.ipfsError m), c, w)) ∧
    (∀ h, ∃ m, IPFSClient.get_data T c h w = (.error (.ipfsError m), c, w)) ∧
    (∀ h, ∃ m, IPFSClient.pin T c h w = (.error (.ipfsError m), c, w)) ∧
    (∀ h, ∃ m, IPFSClient.unpin T c h w = (.error (.ipfsError m), c, w)) ∧
    (∃ m, IPFSClient.list_pins T c w = (.error (.ipfsError m), c, w)) ∧
    (∃ m, IPFSClient.get_stats T c w = (.error (.ipfsError m), c, w)) := by
  refine ⟨fun p f => ?_, fun d f => ?_, fun h o => ?_, fun h => ?_, fun h => ?_,
    fun h => ?_, ?_, ?_⟩
  · cases hx : fsExists w.fs p
    · exact ⟨"Failed to add file: " ++ "File not found: " ++ String.intercalate "/" p,
        by simp [IPFSClient.add_file, hx]⟩
    · exact ⟨"Failed to add file: " ++ noneAttr "add",
        by simp [IPFSClient.add_file, hx, hc]⟩
  · rcases hs : IPFSClient.serialize d with _ | b
    · exact ⟨"Failed to add data: " ++ "UnicodeEncodeError",
        by simp [IPFSClient.add_data, hs]⟩
    · exact ⟨"Failed to add data: " ++ noneAttr "add_bytes",
        by simp [IPFSClient.add_data, hs, hc]⟩
  · exact ⟨"Failed to get file: " ++ noneAttr "cat", by simp [IPFSClient.get_file, hc]⟩
  · exact ⟨"Failed to get data: " ++ noneAttr "cat", by simp [IPFSClient.get_data, hc]⟩
  · exact ⟨"Failed to pin content: " ++ noneAttr "pin", by simp [IPFSClient.pin, hc]⟩
  · exact ⟨"Failed to unpin content: " ++ noneAttr "pin", by simp [IPFSClient.unpin, hc]⟩
  · exact ⟨"Failed to list pins: " ++ noneAttr "pin", by simp [IPFSClient.list_pins, hc]⟩
  · exact ⟨"Failed to get stats: " ++ noneAttr "stats", by simp [IPFSClient.get_stats, hc]⟩

theorem unconnected_ops_amended_witness :
    cl0._client = none ∧
    (∃ m, IPFSClient.get_stats (nodeT hash0) cl0 w0 = (.error (.ipfsError m), cl0, w0)) :=
  ⟨rfl, (unconnected_ops_amended (nodeT hash0) cl0 w0 rfl).2.2.2.2.2.2.2⟩

/-! ## Claim C4 -/

/-- C4 counterexample: connect, close, then `pin` on the (Closed) client: the
released handle's failure is wrapped into the base `IPFSError`, not
`IPFSConnectionError`. -/
theorem closed_client_pin_counterexample :
    (IPFSClient.connect closedGuardT cl0 w0).2.1 = clC ∧
    (IPFSClient.close closedGuardT clC w0).1 = .ok () ∧
    (IPFSClient.pin closedGuardT clC "QmX"
        (IPFSClient.close closedGuardT clC w0).2.2).1
      = .error (.ipfsError "Failed to pin content: closed handle") ∧
    raisedConnErr (IPFSClient.pin closedGuardT clC "QmX"
        (IPFSClient.close closedGuardT clC w0).2.2).1 = false :=
  ⟨rfl, rfl, rfl, rfl⟩

/-- C4 amended: a data operation on a Closed client is attempted on the
released handle; whatever the handle does, the operation either succeeds or
raises the base `IPFSError` kind — never `IPFSConnectionError` (this holds
for every client state, the Closed one included). -/
theorem closed_ops_base_error_amended (T : Transport) (c : IPFSClient) (w : World) :
    (∀ p f, okOrBaseErr (IPFSClient.add_file T c p f w).1 = true) ∧
    (∀ d f, okOrBaseErr (IPFSClient.add_data T c d f w).1 = true) ∧
    (∀ h o, okOrBaseErr (IPFSClient.get_file T c h o w).1 = true) ∧
    (∀ h, okOrBaseErr (IPFSClient.get_data T c h w).1 = true) ∧
    (∀ h, okOrBaseErr (IPFSClient.pin T c h w).1 = true) ∧
    (∀ h, okOrBaseErr (IPFSClient.unpin T c h w).1 = true) ∧
    okOrBaseErr (IPFSClient.list_pins T c w).1 = true ∧
    okOrBaseErr (IPFSClient.get_stats T c w).1 = true :=
  ⟨fun p f => base_add_file T c p f w,
   fun d f => base_add_data T c d f w,
   fun h o => base_get_file T c h o w,
   fun h => base_get_data T c h w,
   fun h => base_pin T c h w,
   fun h => base_unpin T c h w,
   base_list_pins T c w,
   base_get_stats T c w⟩

/-! ## Claim C5 -/

/-- C5 counterexample: the second `close()` re-invokes the underlying
handle's `close()`; with a handle that raises on double close, the second
client `close()` raises. -/
theorem double_close_counterexample :
    (IPFSClient.close onceCloseT clC w0).1 = .ok () ∧
    (IPFSClient.close onceCloseT clC (IPFSClient.close onceCloseT clC w0).2.2).1
      = .error (.transportError "already closed") :=
  ⟨rfl, rfl⟩

/-- C5 amended: `close()` on a never-connected client is a no-op; `close()`
never changes the client's fields; and a second `close()` raises no error
provided the underlying handle's `close()` never raises (the code re-invokes
it rather than skipping it). -/
theorem close_noop_amended (T : Transport) (c : IPFSClient) (w : World) :
    (c._client = none → IPFSClient.close T c w = (.ok (), c, w)) ∧
    ((IPFSClient.close T c w).2.1 = c) ∧
    ((∀ u, (T.close u).1 = .ok ()) →
      (IPFSClient.close T c (IPFSClient.close T c w).2.2).1 = .ok ()) := by
  refine ⟨fun hc => by unfold IPFSClient.close; simp [hc], frame_close T c w, fun hok => ?_⟩
  unfold IPFSClient.close
  rcases hc : c._client with _ | u
  · simp [hc]
  · rcases h1 : T.close w with ⟨e | v, w1⟩
    · have := hok w
      rw [h1] at this
      simp at this
    · rcases h2 : T.close w1 with ⟨e2 | v2, w2⟩
      · have := hok w1
        rw [h2] at this
        simp at this
      · simp [hc, h1, h2]

theorem close_noop_amended_witness :
    IPFSClient.close (nodeT hash0) cl0 w0 = (.ok (), cl0, w0) ∧
    (IPFSClient.close (nodeT hash0) clC
        (IPFSClient.close (nodeT hash0) clC w0).2.2).1 = .ok () :=
  ⟨(close_noop_amended (nodeT hash0) cl0 w0).1 rfl,
   (close_noop_amended (nodeT hash0) clC w0).2.2 (fun u => rfl)⟩

/-! ## Claim C7 -/

/-- C7: when the node knows `id` (the fetch succeeds with bytes `b`),
`get_file(id, output_path=p)` returns exactly `b`, leaves the file at `p`
holding exactly `b` (overwriting any previous content), creates every
missing ancestor directory of `p`, and returns bytes identical to
`get_file(id)` without an output path. -/
theorem get_file_output_path_ok (T : Transport) (c : IPFSClient) (w : World)
    (hash : String) (p : List String) (b : List Nat) (w1 : World)
    (hcl : c._client = some ()) (hcat : T.cat hash w = (.ok b, w1)) :
    (IPFSClient.get_file T c hash (some p) w).1 = .ok b ∧
    fsRead (IPFSClient.get_file T c hash (some p) w).2.2.fs p = some b ∧
    (∀ q ∈ p.dropLast.inits, q ∈ (IPFSClient.get_file T c hash (some p) w).2.2.fs.dirs) ∧
    (IPFSClient.get_file T c hash none w).1 = (IPFSClient.get_file T c hash (some p) w).1 := by
  have hstep : IPFSClient.get_file T c hash (some p) w
      = (.ok b, c, { w1 with fs := fsWrite (fsMkdirParents w1.fs p.dropLast) p b }) := by
    unfold IPFSClient.get_file
    simp [hcl, hcat]
  have hstep0 : IPFSClient.get_file T c hash none w = (.ok b, c, w1) := by
    unfold IPFSClient.get_file
    simp [hcl, hcat]
  rw [hstep, hstep0]
  refine ⟨rfl, fsRead_fsWrite _ _ _, ?_, rfl⟩
  intro q hq
  simp [fsWrite, fsMkdirParents, hq]

theorem get_file_output_path_ok_witness :
    clC._client = some () ∧ (nodeT hash0).cat "QmF" wF = (.ok [7, 8], wF) ∧
    (IPFSClient.get_file (nodeT hash0) clC "QmF" (some ["tmp", "out"]) wF).1 = .ok [7, 8] :=
  ⟨rfl, rfl,
   (get_file_output_path_ok (nodeT hash0) clC wF "QmF" ["tmp", "out"] [7, 8] wF rfl rfl).1⟩

/-! ## Claim C9 -/

/-- C9: against the well-behaved node (pin set mutated only by pin/unpin),
for any identifier the node accepts: `pin(id)` succeeds and a following
`listPins()` contains `id`; then `unpin(id)` succeeds and a following
`listPins()` does not contain `id`. -/
theorem pin_list_unpin_roundtrip (hf : List Nat → String) (c : IPFSClient) (w : World)
    (id : String) (blob : List Nat)
    (hcl : c._client = some ()) (hsv : alookup w.node.store id = some blob) :
    (IPFSClient.pin (nodeT hf) c id w).1 = .ok true ∧
    (∃ l, (IPFSClient.list_pins (nodeT hf) c
        (IPFSClient.pin (nodeT hf) c id w).2.2).1 = .ok l ∧ id ∈ l) ∧
    (IPFSClient.unpin (nodeT hf) c id (IPFSClient.pin (nodeT hf) c id w).2.2).1 = .ok true ∧
    (∃ l2, (IPFSClient.list_pins (nodeT hf) c
        (IPFSClient.unpin (nodeT hf) c id
          (IPFSClient.pin (nodeT hf) c id w).2.2).2.2).1 = .ok l2 ∧ id ∉ l2) := by
  have hp := pin_nodeT hf c id w blob hcl hsv
  set w1 := (IPFSClient.pin (nodeT hf) c id w).2.2 with hw1
  have hpins1 : w1.node.pins
      = if id ∈ w.node.pins then w.node.pins else id :: w.node.pins := by
    rw [hw1, hp]
  have hmem : id ∈ w1.node.pins := by
    rw [hpins1]
    by_cases hin : id ∈ w.node.pins <;> simp [hin]
  have hu := unpin_nodeT hf c id w1 hcl hmem
  set w2 := (IPFSClient.unpin (nodeT hf) c id w1).2.2 with hw2
  have hpins2 : w2.node.pins = w1.node.pins.filter (fun x => decide (x ≠ id)) := by
    rw [hw2, hu]
  refine ⟨by rw [hp], ⟨w1.node.pins, by rw [list_pins_nodeT hf c w1 hcl], hmem⟩,
    by rw [hu], ⟨w2.node.pins, by rw [list_pins_nodeT hf c w2 hcl], ?_⟩⟩
  rw [hpins2]
  simp

theorem pin_list_unpin_roundtrip_witness :
    clC._client = some () ∧ alookup wF.node.store "QmF" = some [7, 8] ∧
    (IPFSClient.pin (nodeT hash0) clC "QmF" wF).1 = .ok true :=
  ⟨rfl, rfl, (pin_list_unpin_roundtrip hash0 clC wF "QmF" [7, 8] rfl rfl).1⟩

/-! ## Round-trip groundwork: whitespace, digits, hex -/

theorem skipWs_not_ws (c : Nat) (s : List Nat) (h : isWsC c = false) :
    skipWs (c :: s) = c :: s := by
  simp [skipWs, List.dropWhile, h]

theorem skipWs_ws (c : Nat) (s : List Nat) (h : isWsC c = true) :
    skipWs (c :: s) = skipWs s := by
  simp [skipWs, List.dropWhile, h]

theorem parseVal_ws (f : Nat) (c : Nat) (s : List Nat) (h : isWsC c = true) :
    parseVal f (c :: s) = parseVal f s := by
  cases f with
  | zero => rfl
  | succ f => simp only [parseVal, skipWs_ws c s h]

theorem parseItems_ws (f : Nat) (c : Nat) (s : List Nat) (acc : List JVal)
    (h : isWsC c = true) : parseItems f (c :: s) acc = parseItems f s acc := by
  cases f with
  | zero => rfl
  | succ f => simp only [parseItems, parseVal_ws f c s h]

theorem takeDigits_nodigit (rest : List Nat) (h : noDigitHead rest = true) :
    takeDigits rest = ([], rest) := by
  cases rest with
  | nil => rfl
  | cons c r =>
    simp only [noDigitHead, Bool.not_eq_true'] at h
    simp [takeDigits, h]

theorem takeDigits_append (ds rest : List Nat) (hds : ∀ d ∈ ds, isDigitC d = true)
    (hnd : noDigitHead rest = true) : takeDigits (ds ++ rest) = (ds, rest) := by
  induction ds with
  | nil => simpa using takeDigits_nodigit rest hnd
  | cons d ds ih =>
    have hd := hds d (by simp)
    have ih2 := ih (fun x hx => hds x (by simp [hx]))
    simp [takeDigits, hd, ih2]

theorem natCharsAux_congr : ∀ m f1 f2, m < f1 → m < f2 →
    natCharsAux f1 m = natCharsAux f2 m := by
  intro m
  induction m using Nat.strong_induction_on with
  | _ m ih =>
    intro f1 f2 h1 h2
    match f1, f2 with
    | g1 + 1, g2 + 1 =>
      by_cases hm : m < 10
      · simp [natCharsAux, hm]
      · simp only [natCharsAux, hm, if_neg, reduceIte]
        have hd : m / 10 < m := Nat.div_lt_self (by omega) (by omega)
        rw [ih (m / 10) hd g1 g2 (by omega) (by omega)]

theorem natChars_step (m : Nat) (h : ¬m < 10) :
    natChars m = natChars (m / 10) ++ [48 + m % 10] := by
  have hd : m / 10 < m := Nat.div_lt_self (by omega) (by omega)
  show natCharsAux (m + 1) m = natCharsAux (m / 10 + 1) (m / 10) ++ [48 + m % 10]
  rw [show natCharsAux (m + 1) m = natCharsAux m (m / 10) ++ [48 + m % 10] from by
    simp [natCharsAux, h]]
  rw [natCharsAux_congr (m / 10) m (m / 10 + 1) hd (by omega)]

theorem natChars_small (m : Nat) (h : m < 10) : natChars m = [48 + m] := by
  unfold natChars
  rw [natCharsAux]
  simp [h]

theorem natChars_digits : ∀ m, ∀ d ∈ natChars m, isDigitC d = true := by
  intro m
  induction m using Nat.strong_induction_on with
  | _ m ih =>
    intro d hd
    by_cases hm : m < 10
    · rw [natChars_small m hm] at hd
      simp at hd
      simp [hd, isDigitC]
      omega
    · rw [natChars_step m hm] at hd
      rcases List.mem_append.mp hd with h1 | h2
      · exact ih (m / 10) (Nat.div_lt_self (by omega) (by omega)) d h1
      · simp at h2
        have : m % 10 < 10 := Nat.mod_lt m (by omega)
        simp [h2, isDigitC]
        omega

theorem natChars_head : ∀ m, 1 ≤ m → ∃ c ds, natChars m = c :: ds ∧ 49 ≤ c ∧ c ≤ 57 := by
  intro m
  induction m using Nat.strong_induction_on with
  | _ m ih =>
    intro hm
    by_cases h : m < 10
    · exact ⟨48 + m, [], natChars_small m h, by omega, by omega⟩
    · obtain ⟨c, ds, he, h1, h2⟩ := ih (m / 10) (Nat.div_lt_self (by omega) (by omega)) (by omega)
      exact ⟨c, ds ++ [48 + m % 10], by rw [natChars_step m h, he]; rfl, h1, h2⟩

theorem natChars_ne_nil (m : Nat) : natChars m ≠ [] := by
  by_cases h : m < 10
  · rw [natChars_small m h]
    simp
  · rw [natChars_step m h]
    simp

theorem digitsToNat_append (a : Nat) (ds : List Nat) (e : Nat) :
    digitsToNat a (ds ++ [e]) = digitsToNat a ds * 10 + (e - 48) := by
  induction ds generalizing a with
  | nil => rfl
  | cons d ds ih => exact ih (a * 10 + (d - 48))

theorem digitsToNat_natChars : ∀ m a,
    digitsToNat a (natChars m) = a * 10 ^ (natChars m).length + m := by
  intro m
  induction m using Nat.strong_induction_on with
  | _ m ih =>
    intro a
    by_cases h : m < 10
    · rw [natChars_small m h]
      show a * 10 + (48 + m - 48) = a * 10 ^ 1 + m
      omega
    · rw [natChars_step m h, digitsToNat_append,
        ih (m / 10) (Nat.div_lt_self (by omega) (by omega)) a]
      have hlen : (natChars (m / 10) ++ [48 + m % 10]).length
          = (natChars (m / 10)).length + 1 := by simp
      rw [hlen, pow_succ]
      have : m % 10 < 10 := Nat.mod_lt m (by omega)
      have hdm := Nat.div_add_mod m 10
      ring_nf
      omega

theorem scanNum_natChars (m : Nat) (rest : List Nat) (hnd : noDigitHead rest = true) :
    scanNum (natChars m ++ rest) = some (m, rest) := by
  by_cases hz : m = 0
  · subst hz
    rw [natChars_small 0 (by omega)]
    simp [scanNum]
  · obtain ⟨c, ds, he, h1, h2⟩ := natChars_head m (by omega)
    have hds : ∀ d ∈ ds, isDigitC d = true := by
      intro d hd
      exact natChars_digits m d (by rw [he]; simp [hd])
    have hv : digitsToNat (c - 48) ds = m := by
      have h0 := digitsToNat_natChars m 0
      rw [he] at h0
      rw [show digitsToNat 0 (c :: ds) = digitsToNat (0 * 10 + (c - 48)) ds from rfl] at h0
      simpa using h0
    rw [he]
    simp only [List.cons_append, scanNum]
    rw [if_neg (by omega), if_pos (by simp; omega)]
    rw [takeDigits_append ds rest hds hnd]
    simp [hv]

theorem hexVal_hexDigit : ∀ d < 16, hexVal (hexDigit d) = some d := by decide

theorem hex4Val_hex4 (n : Nat) (h : n < 65536) :
    hex4Val (hexDigit (n / 4096 % 16)) (hexDigit (n / 256 % 16))
      (hexDigit (n / 16 % 16)) (hexDigit (n % 16)) = some n := by
  have h1 := hexVal_hexDigit (n / 4096 % 16) (by omega)
  have h2 := hexVal_hexDigit (n / 256 % 16) (by omega)
  have h3 := hexVal_hexDigit (n / 16 % 16) (by omega)
  have h4 := hexVal_hexDigit (n % 16) (by omega)
  have key : 4096 * (n / 4096 % 16) + 256 * (n / 256 % 16) + 16 * (n / 16 % 16) + n % 16
      = n := by
    have d1 : n / 16 / 16 = n / 256 := by rw [Nat.div_div_eq_div_mul]
    have d2 : n / 256 / 16 = n / 4096 := by rw [Nat.div_div_eq_div_mul]
    have e1 := Nat.div_add_mod (n / 16) 16
    have e2 := Nat.div_add_mod (n / 256) 16
    have e3 : n / 4096 % 16 = n / 4096 := Nat.mod_eq_of_lt (by omega)
    omega
  unfold hex4Val
  rw [h1, h2, h3, h4]
  show some (4096 * (n / 4096 % 16) + 256 * (n / 256 % 16) + 16 * (n / 16 % 16) + n % 16)
      = some n
  rw [key]

/-! ## String scanning round trip -/

theorem scanStr_quote (rest : List Nat) : scanStr (34 :: rest) = some ([], rest) := by
  simp [scanStr]

theorem scanStr_lit (c : Nat) (rest : List Nat) (h1 : c ≠ 34) (h2 : c ≠ 92)
    (h3 : 32 ≤ c) : scanStr (c :: rest) = consStr c (scanStr rest) := by
  simp only [scanStr]
  rw [if_neg h1, if_neg h2, if_neg (by omega)]

theorem scanStr_esc_quote (rest : List Nat) :
    scanStr (92 :: 34 :: rest) = consStr 34 (scanStr rest) := by
  simp [scanStr, scanEsc]

theorem scanStr_esc_back (rest : List Nat) :
    scanStr (92 :: 92 :: rest) = consStr 92 (scanStr rest) := by
  simp [scanStr, scanEsc]

theorem scanStr_esc_b (rest : List Nat) :
    scanStr (92 :: 98 :: rest) = consStr 8 (scanStr rest) := by
  simp [scanStr, scanEsc]

theorem scanStr_esc_t (rest : List Nat) :
    scanStr (92 :: 116 :: rest) = consStr 9 (scanStr rest) := by
  simp [scanStr, scanEsc]

theorem scanStr_esc_n (rest : List Nat) :
    scanStr (92 :: 110 :: rest) = consStr 10 (scanStr rest) := by
  simp [scanStr, scanEsc]

theorem scanStr_esc_f (rest : List Nat) :
    scanStr (92 :: 102 :: rest) = consStr 12 (scanStr rest) := by
  simp [scanStr, scanEsc]

theorem scanStr_esc_r (rest : List Nat) :
    scanStr (92 :: 114 :: rest) = consStr 13 (scanStr rest) := by
  simp [scanStr, scanEsc]

theorem scanStr_u (a b cc d : Nat) (rest : List Nat) (n : Nat)
    (hv : hex4Val a b cc d = some n) (hns : ¬(55296 ≤ n ∧ n < 56320)) :
    scanStr (92 :: 117 :: a :: b :: cc :: d :: rest) = consStr n (scanStr rest) := by
  simp [scanStr, scanEsc, scanU, hv, hns]

theorem scanStr_u_pair (a b cc d a2 b2 c2 d2 : Nat) (rest : List Nat) (n m : Nat)
    (hv1 : hex4Val a b cc d = some n) (hhi : 55296 ≤ n ∧ n < 56320)
    (hv2 : hex4Val a2 b2 c2 d2 = some m) (hlo : 56320 ≤ m ∧ m < 57344) :
    scanStr (92 :: 117 :: a :: b :: cc :: d :: 92 :: 117 :: a2 :: b2 :: c2 :: d2 :: rest)
      = consStr (65536 + (n - 55296) * 1024 + (m - 56320)) (scanStr rest) := by
  simp [scanStr, scanEsc, scanU, scanUPair, hv1, hhi, hv2, hlo]

theorem escStr_cons (c : Nat) (s : List Nat) : escStr (c :: s) = escChar c ++ escStr s := by
  simp [escStr]

theorem scanStr_escStr : ∀ (s rest : List Nat), wfStrB s = true →
    scanStr (escStr s ++ 34 :: rest) = some (s, rest) := by
  intro s
  induction s with
  | nil =>
    intro rest h
    show scanStr ((List.map escChar []).flatten ++ 34 :: rest) = some ([], rest)
    simp only [List.map_nil, List.flatten_nil, List.nil_append]
    exact scanStr_quote rest
  | cons c cs ih =>
    intro rest h
    have hall : validCodeB c = true ∧ wfStrB cs = true := by
      simpa [wfStrB, List.all_cons, Bool.and_eq_true] using h
    have hval : c < 55296 ∨ (57344 ≤ c ∧ c < 1114112) := by
      have := hall.1
      simpa [validCodeB] using this
    have ihr := ih rest hall.2
    rw [escStr_cons, List.append_assoc]
    by_cases e34 : c = 34
    · subst e34
      rw [show escChar 34 = [92, 34] from rfl, List.cons_append, List.cons_append,
        List.nil_append, scanStr_esc_quote, ihr]
      rfl
    · by_cases e92 : c = 92
      · subst e92
        rw [show escChar 92 = [92, 92] from rfl, List.cons_append, List.cons_append,
          List.nil_append, scanStr_esc_back, ihr]
        rfl
      · by_cases e8 : c = 8
        · subst e8
          rw [show escChar 8 = [92, 98] from rfl, List.cons_append, List.cons_append,
            List.nil_append, scanStr_esc_b, ihr]
          rfl
        · by_cases e9 : c = 9
          · subst e9
            rw [show escChar 9 = [92, 116] from rfl, List.cons_append, List.cons_append,
              List.nil_append, scanStr_esc_t, ihr]
            rfl
          · by_cases e10 : c = 10
            · subst e10
              rw [show escChar 10 = [92, 110] from rfl, List.cons_append, List.cons_append,
                List.nil_append, scanStr_esc_n, ihr]
              rfl
            · by_cases e12 : c = 12
              · subst e12
                rw [show escChar 12 = [92, 102] from rfl, List.cons_append,
                  List.cons_append, List.nil_append, scanStr_esc_f, ihr]
                rfl
              · by_cases e13 : c = 13
                · subst e13
                  rw [show escChar 13 = [92, 114] from rfl, List.cons_append,
                    List.cons_append, List.nil_append, scanStr_esc_r, ihr]
                  rfl
                · by_cases elt : c < 32
                  · have hesc : escChar c = 92 :: 117 :: hex4 c := by
                      simp [escChar, e34, e92, e8, e9, e10, e12, e13, elt]
                    rw [hesc]
                    simp only [hex4, List.cons_append, List.nil_append]
                    rw [scanStr_u _ _ _ _ _ c (hex4Val_hex4 c (by omega)) (by omega), ihr]
                    rfl
                  · by_cases e127 : c < 127
                    · have hesc : escChar c = [c] := by
                        simp [escChar, e34, e92, e8, e9, e10, e12, e13, elt, e127]
                      rw [hesc, List.cons_append, List.nil_append,
                        scanStr_lit c _ e34 e92 (by omega), ihr]
                      rfl
                    · by_cases e64 : c < 65536
                      · have hesc : escChar c = 92 :: 117 :: hex4 c := by
                          simp [escChar, e34, e92, e8, e9, e10, e12, e13, elt, e127, e64]
                        rw [hesc]
                        simp only [hex4, List.cons_append, List.nil_append]
                        rw [scanStr_u _ _ _ _ _ c (hex4Val_hex4 c (by omega))
                          (by omega), ihr]
                        rfl
                      · have hesc : escChar c
                            = 92 :: 117 :: hex4 (55296 + (c - 65536) / 1024)
                              ++ 92 :: 117 :: hex4 (56320 + (c - 65536) % 1024) := by
                          simp [escChar, e34, e92, e8, e9, e10, e12, e13, elt, e127, e64]
                        have hc : c < 1114112 := by omega
                        have hdiv : (c - 65536) / 1024 < 1024 := by omega
                        have hmod : (c - 65536) % 1024 < 1024 := Nat.mod_lt _ (by omega)
                        rw [hesc]
                        simp only [hex4, List.cons_append, List.nil_append,
                          List.append_assoc]
                        rw [scanStr_u_pair _ _ _ _ _ _ _ _ _
                          (55296 + (c - 65536) / 1024) (56320 + (c - 65536) % 1024)
                          (hex4Val_hex4 _ (by omega)) (by omega)
                          (hex4Val_hex4 _ (by omega)) (by omega), ihr]
                        have harith : 65536 + (55296 + (c - 65536) / 1024 - 55296) * 1024
                            + (56320 + (c - 65536) % 1024 - 56320) = c := by
                          have := Nat.div_add_mod (c - 65536) 1024
                          omega
                        rw [harith]
                        rfl

/-! ## Heads and sizes of renderings -/

theorem natChars_cons (m : Nat) : ∃ c t, natChars m = c :: t ∧ 48 ≤ c ∧ c ≤ 57 := by
  by_cases hz : m = 0
  · subst hz
    exact ⟨48, [], natChars_small 0 (by omega), by omega, by omega⟩
  · obtain ⟨c, t, he, h1, h2⟩ := natChars_head m (by omega)
    exact ⟨c, t, he, by omega, h2⟩

theorem jsize_pos (v : JVal) : 1 ≤ jsize v := by
  cases v with
  | null => simp [jsize]
  | bool b => simp [jsize]
  | int n => simp [jsize]
  | str s => simp [jsize]
  | arr xs => cases xs <;> (simp only [jsize]; omega)
  | obj kvs => cases kvs <;> (simp only [jsize]; omega)

theorem jsizeItems_pos (x : JVal) (xs : List JVal) : 1 ≤ jsizeItems x xs := by
  cases xs <;> (simp only [jsizeItems]; omega)

theorem jsizeMembers_pos (kv : List Nat × JVal) (kvs : List (List Nat × JVal)) :
    1 ≤ jsizeMembers kv kvs := by
  rcases kv with ⟨k, v⟩
  cases kvs <;> (simp only [jsizeMembers]; omega)

theorem dumps_head (v : JVal) :
    ∃ c t, dumps v = c :: t ∧ isWsC c = false ∧ c ≠ 93 ∧ c ≠ 125 := by
  cases v with
  | null => exact ⟨110, [117, 108, 108], by simp [dumps], by decide, by decide, by decide⟩
  | bool b =>
    cases b
    · exact ⟨102, [97, 108, 115, 101], by simp [dumps], by decide, by decide, by decide⟩
    · exact ⟨116, [114, 117, 101], by simp [dumps], by decide, by decide, by decide⟩
  | int n =>
    by_cases hneg : n < 0
    · exact ⟨45, natChars n.natAbs, by simp [dumps, intChars, hneg], by decide, by decide,
        by decide⟩
    · obtain ⟨c, t, he, h1, h2⟩ := natChars_cons n.toNat
      refine ⟨c, t, ?_, ?_, by omega, by omega⟩
      · simp [dumps, intChars, hneg, he]
      · simp [isWsC]
        omega
  | str s => exact ⟨34, escStr s ++ [34], by simp [dumps], by decide, by decide, by decide⟩
  | arr xs =>
    cases xs with
    | nil => exact ⟨91, [93], by simp [dumps], by decide, by decide, by decide⟩
    | cons x xs =>
      exact ⟨91, dumpsItems x xs ++ [93], by simp [dumps], by decide, by decide, by decide⟩
  | obj kvs =>
    cases kvs with
    | nil => exact ⟨123, [125], by simp [dumps], by decide, by decide, by decide⟩
    | cons kv kvs =>
      exact ⟨123, dumpsMembers kv kvs ++ [125], by simp [dumps], by decide, by decide,
        by decide⟩

theorem dumpsItems_head (x : JVal) (xs : List JVal) :
    ∃ c t, dumpsItems x xs = c :: t ∧ isWsC c = false ∧ c ≠ 93 ∧ c ≠ 125 := by
  obtain ⟨c, t, he, h1, h2, h3⟩ := dumps_head x
  cases xs with
  | nil => exact ⟨c, t, by simp [dumpsItems, he], h1, h2, h3⟩
  | cons y ys =>
    exact ⟨c, t ++ 44 :: 32 :: dumpsItems y ys, by simp [dumpsItems, he], h1, h2, h3⟩

theorem dumpsMembers_head (kv : List Nat × JVal) (kvs : List (List Nat × JVal)) :
    ∃ t, dumpsMembers kv kvs = 34 :: t := by
  rcases kv with ⟨k, v⟩
  cases kvs with
  | nil => exact ⟨escStr k ++ 34 :: 58 :: 32 :: dumps v, by simp [dumpsMembers, dumpsMember]⟩
  | cons kv2 kvs2 =>
    exact ⟨escStr k ++ 34 :: 58 :: 32 :: dumps v ++ 44 :: 32 :: dumpsMembers kv2 kvs2,
      by simp [dumpsMembers, dumpsMember]⟩

theorem objUpd_append (acc : List (List Nat × JVal)) (k : List Nat) (v : JVal)
    (h : ∀ q ∈ acc, q.1 ≠ k) : objUpd acc k v = acc ++ [(k, v)] := by
  induction acc with
  | nil => rfl
  | cons q acc ih =>
    rcases q with ⟨k0, v0⟩
    have hk0 : k0 ≠ k := h (k0, v0) (by simp)
    simp only [objUpd, hk0, if_neg, reduceIte, List.cons_append, List.cons.injEq, true_and]
    exact ih (fun q hq => h q (by simp [hq]))

theorem parse_dumps_all : ∀ N : Nat,
    (∀ v : JVal, sizeOf v ≤ N → jwf v = true → ∀ fuel rest, jsize v ≤ fuel →
      noDigitHead rest = true → parseVal fuel (dumps v ++ rest) = some (v, rest)) ∧
    (∀ (x : JVal) (xs : List JVal), sizeOf x + sizeOf xs ≤ N → jwfItems x xs = true →
      ∀ fuel rest acc, jsizeItems x xs ≤ fuel →
      parseItems fuel (dumpsItems x xs ++ 93 :: rest) acc
        = some (.arr (acc ++ x :: xs), rest)) ∧
    (∀ (kv : List Nat × JVal) (kvs : List (List Nat × JVal)),
      sizeOf kv + sizeOf kvs ≤ N → jwfMembers kv kvs = true →
      distinctKeys (kv :: kvs) = true → ∀ fuel rest acc, jsizeMembers kv kvs ≤ fuel →
      (∀ q ∈ acc, ¬ q.1 ∈ (kv :: kvs).map Prod.fst) →
      parseMembers fuel (dumpsMembers kv kvs ++ 125 :: rest) acc
        = some (.obj (acc ++ kv :: kvs), rest)) := by
  intro N
  induction N using Nat.strong_induction_on with
  | _ N IH =>
    have IHL1 : ∀ v' : JVal, sizeOf v' < N → jwf v' = true → ∀ fuel rest,
        jsize v' ≤ fuel → noDigitHead rest = true →
        parseVal fuel (dumps v' ++ rest) = some (v', rest) :=
      fun v' h => (IH (sizeOf v') h).1 v' le_rfl
    have IHL2 : ∀ (x : JVal) (xs : List JVal), sizeOf x + sizeOf xs < N →
        jwfItems x xs = true → ∀ fuel rest acc, jsizeItems x xs ≤ fuel →
        parseItems fuel (dumpsItems x xs ++ 93 :: rest) acc
          = some (.arr (acc ++ x :: xs), rest) :=
      fun x xs h => (IH (sizeOf x + sizeOf xs) h).2.1 x xs le_rfl
    have IHL3 : ∀ (kv : List Nat × JVal) (kvs : List (List Nat × JVal)),
        sizeOf kv + sizeOf kvs < N → jwfMembers kv kvs = true →
        distinctKeys (kv :: kvs) = true → ∀ fuel rest acc, jsizeMembers kv kvs ≤ fuel →
        (∀ q ∈ acc, ¬ q.1 ∈ (kv :: kvs).map Prod.fst) →
        parseMembers fuel (dumpsMembers kv kvs ++ 125 :: rest) acc
          = some (.obj (acc ++ kv :: kvs), rest) :=
      fun kv kvs h => (IH (sizeOf kv + sizeOf kvs) h).2.2 kv kvs le_rfl
    refine ⟨?_, ?_, ?_⟩
    · -- parseVal on a rendered value
      intro v hsz hwf fuel rest hfuel hnd
      obtain ⟨f, rfl⟩ : ∃ f, fuel = f + 1 :=
        ⟨fuel - 1, by have := jsize_pos v; omega⟩
      cases v with
      | null =>
        simp only [dumps, List.cons_append, parseVal]
        rw [skipWs_not_ws _ _ (by decide)]
        simp [stripLit]
      | bool b =>
        cases b <;>
          (simp only [dumps, List.cons_append, parseVal]
           rw [skipWs_not_ws _ _ (by decide)]
           simp [stripLit])
      | int n =>
        by_cases hneg : n < 0
        · rw [show dumps (.int n) = 45 :: natChars n.natAbs from by
            simp [dumps, intChars, hneg]]
          simp only [List.cons_append, parseVal]
          rw [skipWs_not_ws _ _ (by decide)]
          norm_num
          rw [scanNum_natChars _ _ hnd]
          simp only [Option.some.injEq, Prod.mk.injEq, JVal.int.injEq]
          exact ⟨by omega, by trivial⟩
        · obtain ⟨c, t, he, h1, h2⟩ := natChars_cons n.toNat
          rw [show dumps (.int n) = natChars n.toNat from by simp [dumps, intChars, hneg],
            he]
          have hws : skipWs (c :: (t ++ rest)) = c :: (t ++ rest) :=
            skipWs_not_ws _ _ (by simp [isWsC]; omega)
          simp only [List.cons_append, parseVal, hws]
          rw [if_neg (by omega), if_neg (fun hx => by omega), if_neg (by omega),
            if_neg (fun hx => by omega), if_neg (by omega),
            if_neg (fun hx => by omega), if_neg (by omega),
            if_pos (by simp [isDigitC]; omega)]
          rw [show c :: (t ++ rest) = natChars n.toNat ++ rest from by rw [he]; rfl]
          rw [scanNum_natChars _ _ hnd]
          simp only [Option.some.injEq, Prod.mk.injEq, JVal.int.injEq]
          exact ⟨by omega, by trivial⟩
      | str s =>
        simp only [dumps, List.cons_append, List.append_assoc, List.singleton_append,
          parseVal]
        rw [skipWs_not_ws _ _ (by decide)]
        norm_num
        rw [scanStr_escStr s rest (by simpa [jwf] using hwf)]
      | arr xs =>
        cases xs with
        | nil =>
          simp only [dumps, List.cons_append, parseVal]
          rw [skipWs_not_ws _ _ (by decide)]
          norm_num
          have hws : skipWs (93 :: rest) = 93 :: rest := skipWs_not_ws _ _ (by decide)
          simp [hws]
        | cons x xs =>
          simp only [jwf] at hwf
          simp only [jsize] at hfuel
          obtain ⟨c, t, hhd, hp1, hp2, hp3⟩ := dumpsItems_head x xs
          rw [show dumps (.arr (x :: xs)) ++ rest = 91 :: (dumpsItems x xs ++ 93 :: rest)
            from by simp [dumps]]
          simp only [parseVal]
          rw [skipWs_not_ws _ _ (by decide)]
          norm_num
          have hws2 : skipWs (dumpsItems x xs ++ 93 :: rest) = c :: (t ++ 93 :: rest) := by
            rw [hhd, List.cons_append]
            exact skipWs_not_ws _ _ hp1
          simp only [hws2]
          rw [if_neg hp2]
          rw [show c :: (t ++ 93 :: rest) = dumpsItems x xs ++ 93 :: rest from by
            rw [hhd]; rfl]
          have hszl : sizeOf x + sizeOf xs < N := by
            simp only [JVal.arr.sizeOf_spec, List.cons.sizeOf_spec] at hsz
            omega
          have := IHL2 x xs hszl hwf f rest [] (by omega)
          simpa using this
      | obj kvs =>
        cases kvs with
        | nil =>
          simp only [dumps, List.cons_append, parseVal]
          rw [skipWs_not_ws _ _ (by decide)]
          norm_num
          have hws : skipWs (125 :: rest) = 125 :: rest := skipWs_not_ws _ _ (by decide)
          simp [hws]
        | cons kv kvs =>
          rcases kv with ⟨k0, v0⟩
          simp only [jwf, Bool.and_eq_true] at hwf
          simp only [jsize] at hfuel
          obtain ⟨t, hhd⟩ := dumpsMembers_head (k0, v0) kvs
          rw [show dumps (.obj ((k0, v0) :: kvs)) ++ rest
              = 123 :: (dumpsMembers (k0, v0) kvs ++ 125 :: rest) from by simp [dumps]]
          simp only [parseVal]
          rw [skipWs_not_ws _ _ (by decide)]
          norm_num
          have hws2 : skipWs (dumpsMembers (k0, v0) kvs ++ 125 :: rest)
              = 34 :: (t ++ 125 :: rest) := by
            rw [hhd, List.cons_append]
            exact skipWs_not_ws _ _ (by decide)
          simp only [hws2]
          rw [if_neg (by decide)]
          rw [show (34 : Nat) :: (t ++ 125 :: rest)
              = dumpsMembers (k0, v0) kvs ++ 125 :: rest from by rw [hhd]; rfl]
          have hszl : sizeOf (k0, v0) + sizeOf kvs < N := by
            simp only [JVal.obj.sizeOf_spec, List.cons.sizeOf_spec] at hsz
            omega
          have := IHL3 (k0, v0) kvs hszl hwf.1 hwf.2 f rest [] (by omega) (by simp)
          simpa using this
    · -- parseItems on a rendered item list
      intro x xs hsz hwfi fuel rest acc hfuel
      obtain ⟨f, rfl⟩ : ∃ f, fuel = f + 1 :=
        ⟨fuel - 1, by have := jsizeItems_pos x xs; omega⟩
      cases xs with
      | nil =>
        simp only [jwfItems] at hwfi
        simp only [jsizeItems] at hfuel
        have hszx : sizeOf x < N := by
          simp only [List.nil.sizeOf_spec] at hsz
          omega
        simp only [dumpsItems, parseItems]
        rw [IHL1 x hszx hwfi f (93 :: rest) (by omega) (by rfl)]
        have hws : skipWs (93 :: rest) = 93 :: rest := skipWs_not_ws _ _ (by decide)
        simp [hws]
      | cons y ys =>
        simp only [jwfItems, Bool.and_eq_true] at hwfi
        simp only [jsizeItems] at hfuel
        have hjy := jsizeItems_pos y ys
        have hjx := jsize_pos x
        have hszx : sizeOf x < N := by
          simp only [List.cons.sizeOf_spec] at hsz
          omega
        have hszy : sizeOf y + sizeOf ys < N := by
          simp only [List.cons.sizeOf_spec] at hsz
          omega
        rw [show dumpsItems x (y :: ys) ++ 93 :: rest
            = dumps x ++ (44 :: 32 :: (dumpsItems y ys ++ 93 :: rest)) from by
          simp [dumpsItems]]
        simp only [parseItems]
        rw [IHL1 x hszx hwfi.1 f _ (by omega) (by rfl)]
        have hws : skipWs (44 :: 32 :: (dumpsItems y ys ++ 93 :: rest))
            = 44 :: 32 :: (dumpsItems y ys ++ 93 :: rest) :=
          skipWs_not_ws _ _ (by decide)
        have hitems := IHL2 y ys hszy hwfi.2 f rest (acc ++ [x]) (by omega)
        have hpw : parseItems f (32 :: (dumpsItems y ys ++ 93 :: rest)) (acc ++ [x])
            = parseItems f (dumpsItems y ys ++ 93 :: rest) (acc ++ [x]) :=
          parseItems_ws f 32 _ _ (by decide)
        simp [hws, hpw, hitems]
    · -- parseMembers on a rendered member list
      intro kv kvs hsz hwfm hdk fuel rest acc hfuel hdisj
      obtain ⟨f, rfl⟩ : ∃ f, fuel = f + 1 :=
        ⟨fuel - 1, by have := jsizeMembers_pos kv kvs; omega⟩
      rcases kv with ⟨k, v⟩
      have hknot : ∀ q ∈ acc, q.1 ≠ k := by
        intro q hq
        have := hdisj q hq
        simp at this
        exact this.1
      cases kvs with
      | nil =>
        simp only [jwfMembers, Bool.and_eq_true] at hwfm
        simp only [jsizeMembers] at hfuel
        have hszv : sizeOf v < N := by
          simp only [Prod.mk.sizeOf_spec, List.nil.sizeOf_spec] at hsz
          omega
        rw [show dumpsMembers (k, v) [] ++ 125 :: rest
            = 34 :: (escStr k ++ 34 :: (58 :: 32 :: (dumps v ++ 125 :: rest))) from by
          simp [dumpsMembers, dumpsMember]]
        simp only [parseMembers]
        rw [scanStr_escStr k _ hwfm.1]
        have hws : skipWs (58 :: 32 :: (dumps v ++ 125 :: rest))
            = 58 :: 32 :: (dumps v ++ 125 :: rest) := skipWs_not_ws _ _ (by decide)
        have hv := IHL1 v hszv hwfm.2 f (125 :: rest) (by omega) (by rfl)
        have hpv : parseVal f (32 :: (dumps v ++ 125 :: rest))
            = parseVal f (dumps v ++ 125 :: rest) := parseVal_ws f 32 _ (by decide)
        have hws2 : skipWs (125 :: rest) = 125 :: rest := skipWs_not_ws _ _ (by decide)
        have hupd := objUpd_append acc k v hknot
        simp [hws, hpv, hv, hws2, hupd]
      | cons kv2 kvs2 =>
        rcases kv2 with ⟨k2, v2⟩
        simp only [jwfMembers, Bool.and_eq_true] at hwfm
        simp only [jsizeMembers] at hfuel
        have hjv := jsize_pos v
        have hj2 := jsizeMembers_pos (k2, v2) kvs2
        have hszv : sizeOf v < N := by
          simp only [Prod.mk.sizeOf_spec, List.cons.sizeOf_spec] at hsz
          omega
        have hsz2 : sizeOf (k2, v2) + sizeOf kvs2 < N := by
          simp only [Prod.mk.sizeOf_spec, List.cons.sizeOf_spec] at hsz ⊢
          omega
        have hdk' := hdk
        simp only [distinctKeys, Bool.and_eq_true] at hdk'
        have hdk2 : distinctKeys ((k2, v2) :: kvs2) = true := by
          simp only [distinctKeys, Bool.and_eq_true]
          exact hdk'.2
        have hkaway := hdk'.1
        obtain ⟨t2, hh2⟩ := dumpsMembers_head (k2, v2) kvs2
        rw [show dumpsMembers (k, v) ((k2, v2) :: kvs2) ++ 125 :: rest
            = 34 :: (escStr k ++ 34 :: (58 :: 32 :: (dumps v
              ++ 44 :: 32 :: (dumpsMembers (k2, v2) kvs2 ++ 125 :: rest)))) from by
          simp [dumpsMembers, dumpsMember]]
        simp only [parseMembers]
        rw [scanStr_escStr k _ hwfm.1.1]
        have hws : skipWs (58 :: 32 :: (dumps v
            ++ 44 :: 32 :: (dumpsMembers (k2, v2) kvs2 ++ 125 :: rest)))
            = 58 :: 32 :: (dumps v
              ++ 44 :: 32 :: (dumpsMembers (k2, v2) kvs2 ++ 125 :: rest)) :=
          skipWs_not_ws _ _ (by decide)
        have hv := IHL1 v hszv hwfm.1.2 f
          (44 :: 32 :: (dumpsMembers (k2, v2) kvs2 ++ 125 :: rest)) (by omega) (by rfl)
        have hpv : parseVal f (32 :: (dumps v
            ++ 44 :: 32 :: (dumpsMembers (k2, v2) kvs2 ++ 125 :: rest)))
            = parseVal f (dumps v
              ++ 44 :: 32 :: (dumpsMembers (k2, v2) kvs2 ++ 125 :: rest)) :=
          parseVal_ws f 32 _ (by decide)
        have hws2 : skipWs (44 :: 32 :: (dumpsMembers (k2, v2) kvs2 ++ 125 :: rest))
            = 44 :: 32 :: (dumpsMembers (k2, v2) kvs2 ++ 125 :: rest) :=
          skipWs_not_ws _ _ (by decide)
        have hws3 : skipWs (32 :: (dumpsMembers (k2, v2) kvs2 ++ 125 :: rest))
            = dumpsMembers (k2, v2) kvs2 ++ 125 :: rest := by
          rw [skipWs_ws _ _ (by decide), hh2, List.cons_append,
            skipWs_not_ws _ _ (by decide), ← List.cons_append, ← hh2]
        have hupd := objUpd_append acc k v hknot
        have hdisj2 : ∀ q ∈ acc ++ [(k, v)], ¬ q.1 ∈ ((k2, v2) :: kvs2).map Prod.fst := by
          intro q hq
          rcases List.mem_append.mp hq with hq1 | hq2
          · have hq3 := hdisj q hq1
            simp only [List.map_cons, List.mem_cons] at hq3 ⊢
            intro hmem
            exact hq3 (Or.inr hmem)
          · simp only [List.mem_singleton] at hq2
            subst hq2
            simp only [List.all_eq_true] at hkaway
            simp only [List.map_cons, List.mem_cons, List.mem_map]
            intro hmem
            rcases hmem with h1 | h2
            · exact absurd h1.symm (by simpa using hkaway (k2, v2) (by simp))
            · rcases h2 with ⟨p, hp, hpk⟩
              exact absurd hpk (by simpa using hkaway p (by simp [hp]))
        have hmem := IHL3 (k2, v2) kvs2 hsz2 hwfm.2 hdk2 f rest (acc ++ [(k, v)])
          (by omega) hdisj2
        simp [hws, hpv, hv, hws2, hws3, hupd, hmem]


/-- Fuel bound: the fuel a rendering needs never exceeds its length plus one. -/
theorem jsize_le_dumps_all : ∀ N : Nat,
    (∀ v : JVal, sizeOf v ≤ N → jsize v ≤ (dumps v).length + 1) ∧
    (∀ (x : JVal) (xs : List JVal), sizeOf x + sizeOf xs ≤ N →
      jsizeItems x xs ≤ (dumpsItems x xs).length + 2) ∧
    (∀ (kv : List Nat × JVal) (kvs : List (List Nat × JVal)),
      sizeOf kv + sizeOf kvs ≤ N →
      jsizeMembers kv kvs ≤ (dumpsMembers kv kvs).length + 2) := by
  intro N
  induction N using Nat.strong_induction_on with
  | _ N IH =>
    have IHL1 : ∀ v' : JVal, sizeOf v' < N → jsize v' ≤ (dumps v').length + 1 :=
      fun v' h => (IH (sizeOf v') h).1 v' le_rfl
    have IHL2 : ∀ (x : JVal) (xs : List JVal), sizeOf x + sizeOf xs < N →
        jsizeItems x xs ≤ (dumpsItems x xs).length + 2 :=
      fun x xs h => (IH (sizeOf x + sizeOf xs) h).2.1 x xs le_rfl
    have IHL3 : ∀ (kv : List Nat × JVal) (kvs : List (List Nat × JVal)),
        sizeOf kv + sizeOf kvs < N →
        jsizeMembers kv kvs ≤ (dumpsMembers kv kvs).length + 2 :=
      fun kv kvs h => (IH (sizeOf kv + sizeOf kvs) h).2.2 kv kvs le_rfl
    refine ⟨?_, ?_, ?_⟩
    · intro v hsz
      cases v with
      | null => simp [jsize, dumps]
      | bool b => cases b <;> simp [jsize, dumps]
      | int n => simp only [jsize]; omega
      | str s => simp only [jsize]; omega
      | arr l =>
        cases l with
        | nil => simp [jsize, dumps]
        | cons x xs =>
          have hlt : sizeOf x + sizeOf xs < N := by
            simp only [JVal.arr.sizeOf_spec, List.cons.sizeOf_spec] at hsz
            omega
          have h2 := IHL2 x xs hlt
          simp only [jsize, dumps, List.length_cons, List.length_append,
            List.length_singleton]
          omega
      | obj l =>
        cases l with
        | nil => simp [jsize, dumps]
        | cons kv kvs =>
          have hlt : sizeOf kv + sizeOf kvs < N := by
            simp only [JVal.obj.sizeOf_spec, List.cons.sizeOf_spec] at hsz
            omega
          have h3 := IHL3 kv kvs hlt
          simp only [jsize, dumps, List.length_cons, List.length_append,
            List.length_singleton]
          omega
    · intro x xs hsz
      cases xs with
      | nil =>
        have hlt : sizeOf x < N := by
          simp only [List.nil.sizeOf_spec] at hsz
          omega
        have h1 := IHL1 x hlt
        simp only [jsizeItems, dumpsItems]
        omega
      | cons y ys =>
        have hx : sizeOf x < N := by
          simp only [List.cons.sizeOf_spec] at hsz
          omega
        have hys : sizeOf y + sizeOf ys < N := by
          simp only [List.cons.sizeOf_spec] at hsz
          omega
        have h1 := IHL1 x hx
        have h2 := IHL2 y ys hys
        simp only [jsizeItems, dumpsItems, List.length_append, List.length_cons]
        omega
    · intro kv kvs hsz
      rcases kv with ⟨k, v⟩
      cases kvs with
      | nil =>
        have hv : sizeOf v < N := by
          simp only [Prod.mk.sizeOf_spec, List.nil.sizeOf_spec] at hsz
          omega
        have h1 := IHL1 v hv
        simp only [jsizeMembers, dumpsMembers, dumpsMember, List.length_cons,
          List.length_append]
        omega
      | cons kv2 kvs2 =>
        rcases kv2 with ⟨k2, v2⟩
        have hv : sizeOf v < N := by
          simp only [Prod.mk.sizeOf_spec, List.cons.sizeOf_spec] at hsz
          omega
        have h2m : sizeOf (k2, v2) + sizeOf kvs2 < N := by
          simp only [Prod.mk.sizeOf_spec, List.cons.sizeOf_spec] at hsz ⊢
          omega
        have h1 := IHL1 v hv
        have h3 := IHL3 (k2, v2) kvs2 h2m
        simp only [jsizeMembers, dumpsMembers, dumpsMember, List.length_cons,
          List.length_append]
        omega

/-- `json.loads` inverts `json.dumps` on well-formed values. -/
theorem loads_dumps (v : JVal) (hwf : jwf v = true) : loads (dumps v) = some v := by
  have hfuel : jsize v ≤ (dumps v).length + 1 :=
    (jsize_le_dumps_all (sizeOf v)).1 v le_rfl
  have hp := (parse_dumps_all (sizeOf v)).1 v le_rfl hwf ((dumps v).length + 1) []
    hfuel (by rfl)
  rw [List.append_nil] at hp
  simp [loads, hp, skipWs]


/-- Hex digit characters are ASCII. -/
theorem hexDigit_lt (d : Nat) (h : d < 16) : hexDigit d < 128 := by
  unfold hexDigit
  split <;> omega

/-- All four characters of a `\uXXXX` payload are ASCII. -/
theorem hex4_all (n : Nat) : (hex4 n).all (fun c => decide (c < 128)) = true := by
  have h1 := hexDigit_lt (n / 4096 % 16) (Nat.mod_lt _ (by norm_num))
  have h2 := hexDigit_lt (n / 256 % 16) (Nat.mod_lt _ (by norm_num))
  have h3 := hexDigit_lt (n / 16 % 16) (Nat.mod_lt _ (by norm_num))
  have h4 := hexDigit_lt (n % 16) (Nat.mod_lt _ (by norm_num))
  simp [hex4, h1, h2, h3, h4]

/-- `json.dumps` escaping with `ensure_ascii=True` emits only ASCII. -/
theorem escChar_all (a : Nat) : (escChar a).all (fun c => decide (c < 128)) = true := by
  unfold escChar
  repeat' split
  all_goals simp_all [hex4_all, List.all_append] <;> omega

/-- An escaped string body is all ASCII. -/
theorem escStr_all (s : List Nat) : (escStr s).all (fun c => decide (c < 128)) = true := by
  induction s with
  | nil => rfl
  | cons c cs ih =>
    simp only [escStr, List.map_cons, List.flatten_cons, List.all_append]
    simp only [escStr] at ih
    simp [escChar_all, ih]

/-- Decimal digit characters are ASCII. -/
theorem natCharsAux_all (fuel : Nat) : ∀ m : Nat,
    (natCharsAux fuel m).all (fun c => decide (c < 128)) = true := by
  induction fuel with
  | zero => intro m; rfl
  | succ f ih =>
    intro m
    unfold natCharsAux
    split
    · simp; omega
    · simp only [List.all_append, ih (m / 10), Bool.true_and]
      simp
      omega

/-- `natChars` output is ASCII. -/
theorem natChars_all (m : Nat) :
    (natChars m).all (fun c => decide (c < 128)) = true := natCharsAux_all (m + 1) m

/-- `intChars` output is ASCII. -/
theorem intChars_all (n : Int) :
    (intChars n).all (fun c => decide (c < 128)) = true := by
  unfold intChars
  split
  · simp [natChars_all]
  · exact natChars_all _

/-- Everything `json.dumps` renders is ASCII (characters below 128),
in all three mutual renderers. -/
theorem dumps_ascii_all : ∀ N : Nat,
    (∀ v : JVal, sizeOf v ≤ N →
      (dumps v).all (fun c => decide (c < 128)) = true) ∧
    (∀ (x : JVal) (xs : List JVal), sizeOf x + sizeOf xs ≤ N →
      (dumpsItems x xs).all (fun c => decide (c < 128)) = true) ∧
    (∀ (kv : List Nat × JVal) (kvs : List (List Nat × JVal)),
      sizeOf kv + sizeOf kvs ≤ N →
      (dumpsMembers kv kvs).all (fun c => decide (c < 128)) = true) := by
  intro N
  induction N using Nat.strong_induction_on with
  | _ N IH =>
    have IHL1 : ∀ v' : JVal, sizeOf v' < N →
        (dumps v').all (fun c => decide (c < 128)) = true :=
      fun v' h => (IH (sizeOf v') h).1 v' le_rfl
    have IHL2 : ∀ (x : JVal) (xs : List JVal), sizeOf x + sizeOf xs < N →
        (dumpsItems x xs).all (fun c => decide (c < 128)) = true :=
      fun x xs h => (IH (sizeOf x + sizeOf xs) h).2.1 x xs le_rfl
    have IHL3 : ∀ (kv : List Nat × JVal) (kvs : List (List Nat × JVal)),
        sizeOf kv + sizeOf kvs < N →
        (dumpsMembers kv kvs).all (fun c => decide (c < 128)) = true :=
      fun kv kvs h => (IH (sizeOf kv + sizeOf kvs) h).2.2 kv kvs le_rfl
    refine ⟨?_, ?_, ?_⟩
    · intro v hsz
      cases v with
      | null => simp [dumps]
      | bool b => cases b <;> simp [dumps]
      | int n =>
        simp only [dumps]
        exact intChars_all n
      | str s =>
        simp only [dumps, List.all_cons, List.all_append]
        simp [escStr_all]
      | arr l =>
        cases l with
        | nil => simp [dumps]
        | cons x xs =>
          have hlt : sizeOf x + sizeOf xs < N := by
            simp only [JVal.arr.sizeOf_spec, List.cons.sizeOf_spec] at hsz
            omega
          simp only [dumps, List.all_cons, List.all_append]
          simp [IHL2 x xs hlt]
      | obj l =>
        cases l with
        | nil => simp [dumps]
        | cons kv kvs =>
          have hlt : sizeOf kv + sizeOf kvs < N := by
            simp only [JVal.obj.sizeOf_spec, List.cons.sizeOf_spec] at hsz
            omega
          simp only [dumps, List.all_cons, List.all_append]
          simp [IHL3 kv kvs hlt]
    · intro x xs hsz
      cases xs with
      | nil =>
        have hlt : sizeOf x < N := by
          simp only [List.nil.sizeOf_spec] at hsz
          omega
        simpa only [dumpsItems] using IHL1 x hlt
      | cons y ys =>
        have hx : sizeOf x < N := by
          simp only [List.cons.sizeOf_spec] at hsz
          omega
        have hys : sizeOf y + sizeOf ys < N := by
          simp only [List.cons.sizeOf_spec] at hsz
          omega
        simp only [dumpsItems, List.all_append, List.all_cons]
        simp [IHL1 x hx, IHL2 y ys hys]
    · intro kv kvs hsz
      rcases kv with ⟨k, v⟩
      cases kvs with
      | nil =>
        have hv : sizeOf v < N := by
          simp only [Prod.mk.sizeOf_spec, List.nil.sizeOf_spec] at hsz
          omega
        simp only [dumpsMembers, dumpsMember, List.all_cons, List.all_append]
        simp [escStr_all, IHL1 v hv]
      | cons kv2 kvs2 =>
        rcases kv2 with ⟨k2, v2⟩
        have hv : sizeOf v < N := by
          simp only [Prod.mk.sizeOf_spec, List.cons.sizeOf_spec] at hsz
          omega
        have h2m : sizeOf (k2, v2) + sizeOf kvs2 < N := by
          simp only [Prod.mk.sizeOf_spec, List.cons.sizeOf_spec] at hsz ⊢
          omega
        simp only [dumpsMembers, dumpsMember, List.all_cons, List.all_append]
        simp [escStr_all, IHL1 v hv, IHL3 (k2, v2) kvs2 h2m]

/-- Pointwise form of the ASCII bound on `dumps`. -/
theorem dumps_ascii (v : JVal) : ∀ c ∈ dumps v, c < 128 := by
  intro c hc
  exact of_decide_eq_true
    (List.all_eq_true.mp ((dumps_ascii_all (sizeOf v)).1 v le_rfl) c hc)

/-- Encoding an ASCII string is the identity on its code points. -/
theorem ascii_map_utf8 (s : List Nat) (h : ∀ c ∈ s, c < 128) :
    (s.map utf8Char).flatten = s := by
  induction s with
  | nil => rfl
  | cons c cs ih =>
    have hc : c < 128 := h c (by simp)
    have hch : utf8Char c = [c] := by
      unfold utf8Char
      rw [if_pos hc]
    simp [hch, ih (fun x hx => h x (by simp [hx]))]

/-- `str.encode()` on an ASCII string succeeds and is the identity. -/
theorem ascii_utf8Encode (s : List Nat) (h : ∀ c ∈ s, c < 128) :
    utf8Encode s = some s := by
  have hall : s.all validCodeB = true := by
    simp only [List.all_eq_true]
    intro c hc
    have := h c hc
    simp only [validCodeB, decide_eq_true_eq]
    omega
  unfold utf8Encode
  rw [if_pos hall, ascii_map_utf8 s h]

/-- `bytes.decode()` on ASCII bytes succeeds and is the identity. -/
theorem ascii_utf8Decode (s : List Nat) (h : ∀ c ∈ s, c < 128) :
    utf8Decode s = some s := by
  induction s with
  | nil => simp [utf8Decode]
  | cons b bs ih =>
    have hb : b < 128 := h b (by simp)
    have hrest := ih (fun x hx => h x (by simp [hx]))
    simp [utf8Decode, hb, hrest]

/-- Looking up the key just upserted returns the new value. -/
theorem alookup_aupsert {β : Type} (l : List (String × β)) (k : String) (v : β) :
    alookup (aupsert l k v) k = some v := by
  induction l with
  | nil => simp [aupsert, alookup]
  | cons p rest ih =>
    rcases p with ⟨k0, v0⟩
    by_cases h : k0 = k
    · simp [aupsert, alookup, h]
    · simp [aupsert, alookup, h, ih]

/-- The node transport's `add_bytes`, spelled out. -/
theorem nodeT_add_bytes (hashFn : List Nat → String) (b : List Nat) (p : Bool)
    (w : World) :
    (nodeT hashFn).add_bytes b p w
      = (.ok (hashFn b),
         { w with node :=
           { store := aupsert w.node.store (hashFn b) b
             pins := if p then
                 (if hashFn b ∈ w.node.pins then w.node.pins
                  else hashFn b :: w.node.pins)
               else w.node.pins } }) := rfl

/-- The node transport's `cat`, spelled out. -/
theorem nodeT_cat (hashFn : List Nat → String) (h : String) (w : World) :
    (nodeT hashFn).cat h w
      = match alookup w.node.store h with
        | some b => (.ok b, w)
        | none => (.error (.transportError "merkledag: not found"), w) := rfl

namespace IPFSClient

/-- C8: round trip through the store.  On a connected client over a
deterministic content-addressed node, `add_data` of a dict serializes it
with `json.dumps(...).encode()`, stores the bytes under their hash and
returns that hash; `get_data` of the returned hash fetches the bytes back,
decodes them and `json.loads` recovers a structured value equal to the
original dict (keys must be scalar-valued and distinct, as Python dicts
guarantee). -/
theorem add_get_roundtrip (hf : List Nat → String) (c : IPFSClient) (w : World)
    (kvs : List (List Nat × JVal)) (pinFlag : Bool)
    (hcl : c._client = some ()) (hwf : jwf (.obj kvs) = true) :
    (add_data (nodeT hf) c (.dict kvs) pinFlag w).1
        = .ok (hf (dumps (.obj kvs))) ∧
    get_data (nodeT hf) c (hf (dumps (.obj kvs)))
        (add_data (nodeT hf) c (.dict kvs) pinFlag w).2.2
      = (.ok (.json (.obj kvs)), c,
         (add_data (nodeT hf) c (.dict kvs) pinFlag w).2.2) := by
  have hdata : serialize (.dict kvs) = some (dumps (.obj kvs)) := by
    simp only [serialize]
    exact ascii_utf8Encode _ (dumps_ascii _)
  have hfst : (add_data (nodeT hf) c (.dict kvs) pinFlag w).1
      = .ok (hf (dumps (.obj kvs))) := by
    simp [add_data, hdata, hcl, nodeT_add_bytes]
  have hstore : ((add_data (nodeT hf) c (.dict kvs) pinFlag w).2.2).node.store
      = aupsert w.node.store (hf (dumps (.obj kvs))) (dumps (.obj kvs)) := by
    simp [add_data, hdata, hcl, nodeT_add_bytes]
  refine ⟨hfst, ?_⟩
  have hcat : alookup
      ((add_data (nodeT hf) c (.dict kvs) pinFlag w).2.2).node.store
      (hf (dumps (.obj kvs))) = some (dumps (.obj kvs)) := by
    rw [hstore]
    exact alookup_aupsert _ _ _
  have hdec : utf8Decode (dumps (.obj kvs)) = some (dumps (.obj kvs)) :=
    ascii_utf8Decode _ (dumps_ascii _)
  have hld : loads (dumps (.obj kvs)) = some (.obj kvs) := loads_dumps _ hwf
  simp [get_data, hcl, nodeT_cat, hcat, hdec, hld]

/-- C8 witness: the spec's own example `{"a": 1}` at a concrete client,
world and addressing function. -/
theorem add_get_roundtrip_witness :
    (add_data (nodeT hash0) clC (.dict [([97], .int 1)]) true w0).1
        = .ok (hash0 (dumps (.obj [([97], .int 1)]))) ∧
    get_data (nodeT hash0) clC (hash0 (dumps (.obj [([97], .int 1)])))
        (add_data (nodeT hash0) clC (.dict [([97], .int 1)]) true w0).2.2
      = (.ok (.json (.obj [([97], .int 1)])), clC,
         (add_data (nodeT hash0) clC (.dict [([97], .int 1)]) true w0).2.2) :=
  add_get_roundtrip hash0 clC w0 [([97], .int 1)] true rfl
    (by simp [jwf, jwfMembers, wfStrB, validCodeB, distinctKeys])

/-- C1 counterexample: the node returns the single byte `0xFF` (not UTF-8,
not JSON).  The spec promises the raw bytes back with no error, but
`get_data` raises `IPFSError`: the `except (JSONDecodeError,
UnicodeDecodeError)` handler's own `data.decode()` raises again and the
outer `except Exception` wraps it. -/
theorem get_data_bytes_counterexample :
    get_data (nodeT hash0) clC "QmX" wBad
      = (.error (.ipfsError ("Failed to get data: " ++ "UnicodeDecodeError")),
         clC, wBad) ∧
    utf8Decode [255] = none := by
  have hcl : clC._client = some () := rfl
  have hcat : (nodeT hash0).cat "QmX" wBad = (.ok [255], wBad) := rfl
  have hdec : utf8Decode [255] = none := by simp [utf8Decode]
  refine ⟨?_, hdec⟩
  simp [get_data, hcl, hcat, hdec]

/-- C1 amended: on a connected client, when the fetch succeeds `get_data`
returns the parsed JSON value if the bytes decode and parse, the decoded
text if they decode but do not parse, and raises `IPFSError` (never raw
bytes) if they do not decode as UTF-8; when the fetch fails it raises
`IPFSError` wrapping the fetch error. -/
theorem get_data_fallback_amended (T : Transport) (c : IPFSClient) (hash : String)
    (w : World) (hcl : c._client = some ()) :
    (∀ data w1, T.cat hash w = (.ok data, w1) →
      (∀ s v, utf8Decode data = some s → loads s = some v →
        get_data T c hash w = (.ok (.json v), c, w1)) ∧
      (∀ s, utf8Decode data = some s → loads s = none →
        get_data T c hash w = (.ok (.text s), c, w1)) ∧
      (utf8Decode data = none →
        get_data T c hash w
          = (.error (.ipfsError ("Failed to get data: " ++ "UnicodeDecodeError")),
             c, w1))) ∧
    (∀ e w1, T.cat hash w = (.error e, w1) →
      get_data T c hash w
        = (.error (.ipfsError ("Failed to get data: " ++ excMsg e)), c, w1)) := by
  constructor
  · intro data w1 hcat
    refine ⟨?_, ?_, ?_⟩
    · intro s v hdec hld
      simp [get_data, hcl, hcat, hdec, hld]
    · intro s hdec hld
      simp [get_data, hcl, hcat, hdec, hld]
    · intro hdec
      simp [get_data, hcl, hcat, hdec]
  · intro e w1 hcat
    simp [get_data, hcl, hcat]

/-- C1 amended witness: JSON text `[1]` stored under `"QmJ"` comes back as
the structured value. -/
theorem get_data_fallback_amended_witness :
    get_data (nodeT hash0) clC "QmJ" wJ = (.ok (.json (.arr [.int 1])), clC, wJ) :=
  ((get_data_fallback_amended (nodeT hash0) clC "QmJ" wJ rfl).1
    [91, 49, 93] wJ rfl).1 [91, 49, 93] (.arr [.int 1])
    (ascii_utf8Decode [91, 49, 93] (by decide)) rfl

end IPFSClient

end KovaIPFS
